import Mathlib

/-!
# Photomosaic pipeline (`main_channels.go`, `main_mutex.go`, `main_nonconc.go`, `main_conc.go`)

A shallow embedding of the tile-indexing, colour-matching and compositing code of
`main_channels.go` and `main_mutex.go`, and of the matching loop and the nested
cell loops of `main_nonconc.go` and `main_conc.go`.

Modelling conventions
* `float64` values are exact rationals.  The channel sums are sums of integers
  below `2^53`, hence exact; a quotient by a zero `pixelCount` is `+Inf` or `NaN`
  and is represented by `none`.  Every later operation on such a value
  (`-`, `math.Pow`, `+`, `math.Sqrt`) stays non-finite, and a non-finite value is
  never `<` a finite one.
* `math.Sqrt` is strictly increasing on non-negative numbers, so the comparison
  `tileVectorDiff < smallestDiff` is carried out on the squares.
* A Go `map` is an association list; the order in which `range` visits it is an
  explicit list, so that statements can quantify over every order.
* Goroutines are run one after the other in the order in which they are spawned;
  the canvas writes are serialised by the mutex in the source.
-/

namespace Mosaic

/-! ## Colours and images -/

/-- The three colour channels of `Color.RGBA()`; the alpha channel is dropped by
every caller (`r, g, b, _ := ...`). -/
structure RGB where
  r : Nat
  g : Nat
  b : Nat
deriving DecidableEq, Repr

/-- An `image.Image` as the code sees it: `Bounds()` and `At(x, y).RGBA()`.
`At` is total, as in Go: what it returns outside the bounds is up to the
concrete image type. -/
structure Image where
  minX : Int
  minY : Int
  maxX : Int
  maxY : Int
  At : Int → Int → RGB

/-- The slice `[]float64{rAvr, gAvr, bAvr}` with finite entries. -/
structure AvgRGB where
  r : ℚ
  g : ℚ
  b : ℚ
deriving DecidableEq

/-- The values `lo, lo+1, ..., hi` of a loop `for v := lo; v <= hi; v++`. -/
def rangeIncl (lo hi : Int) : List Int :=
  (List.range (hi + 1 - lo).toNat).map (fun (k : Nat) => lo + (k : Int))

/-- The accumulators `rSum, gSum, bSum` after the two nested loops of
`getImageColour`. -/
def sumRegion (image : Image) (xMin yMin xMax yMax : Int) : RGB :=
  (rangeIncl yMin yMax).foldl
    (fun acc y =>
      (rangeIncl xMin xMax).foldl
        (fun acc x =>
          let c := image.At x y
          { r := acc.r + c.r, g := acc.g + c.g, b := acc.b + c.b })
        acc)
    { r := 0, g := 0, b := 0 }

/-- The conversion `uint32(n)` of an `int`. -/
def toUint32 (n : Int) : Nat := (n % 4294967296).toNat

/-- The function `getImageColour` of `main_channels.go` and `main_mutex.go`. -/
def getImageColour (image : Image) (xMin yMin xMax yMax : Int) : Option AvgRGB :=
  let s := sumRegion image xMin yMin xMax yMax
  let pixelCount := toUint32 ((xMax - xMin) * (yMax - yMin))
  if pixelCount = 0 then none
  else some
    { r := (s.r : ℚ) / (pixelCount : ℚ)
      g := (s.g : ℚ) / (pixelCount : ℚ)
      b := (s.b : ℚ) / (pixelCount : ℚ) }

/-- The number of pixels of the region `[xMin,xMax] x [yMin,yMax]`, which is the
number of pixels the two loops of `getImageColour` visit. -/
def regionPixels (xMin yMin xMax yMax : Int) : Nat :=
  (rangeIncl yMin yMax).length * (rangeIncl xMin xMax).length

/-- The channel averages as the specification words them: the channel sums over
the region divided by the number of pixels that were summed. -/
def specImageColour (image : Image) (xMin yMin xMax yMax : Int) : AvgRGB :=
  let s := sumRegion image xMin yMin xMax yMax
  let n := regionPixels xMin yMin xMax yMax
  { r := (s.r : ℚ) / (n : ℚ), g := (s.g : ℚ) / (n : ℚ), b := (s.b : ℚ) / (n : ℚ) }

/-! ## The catalog and the matching loop -/

/-- The struct `TileImage`; `averageRGB = none` stands for non-finite entries. -/
structure TileImage where
  xMin : Int
  yMin : Int
  scaled : Image
  averageRGB : Option AvgRGB

/-- The map `tiles`, listed in the order in which `range` visits it. -/
abbrev Catalog := List (String × TileImage)

/-- The argument of `math.Sqrt` in the matching loop. -/
def diffSq (origRGB tileRGB : AvgRGB) : ℚ :=
  (origRGB.r - tileRGB.r) ^ 2 + (origRGB.g - tileRGB.g) ^ 2 + (origRGB.b - tileRGB.b) ^ 2

/-- The square of `tileVectorDiff`; `none` when it is not finite. -/
def tileVectorDiffSq (origRGB : Option AvgRGB) (tile : TileImage) : Option ℚ :=
  match origRGB, tile.averageRGB with
  | some o, some t => some (diffSq o t)
  | _, _ => none

/-- The square of the initial `smallestDiff := 99999999.0`. -/
def smallestDiffInitSq : ℚ := 99999999 ^ 2

/-- The state `(nearestFilename, smallestDiff^2)` of the matching loop. -/
abbrev MatchState := String × ℚ

/-- One iteration of `for file, tile := range tiles`. -/
def matchStep (origRGB : Option AvgRGB) (st : MatchState) (ft : String × TileImage) :
    MatchState :=
  match tileVectorDiffSq origRGB ft.2 with
  | some d => if d < st.2 then (ft.1, d) else st
  | none => st

/-- The matching loop, from `var nearestFilename string` to the end of the
`range`. -/
def matchLoop (tiles : Catalog) (origRGB : Option AvgRGB) : MatchState :=
  tiles.foldl (matchStep origRGB) ("", smallestDiffInitSq)

/-- The value of `nearestFilename` after the matching loop. -/
def nearestFilename (tiles : Catalog) (origRGB : Option AvgRGB) : String :=
  (matchLoop tiles origRGB).1

/-- The lookup `tiles[file]`; `none` is the nil pointer of a missing key. -/
def Catalog.get (tiles : Catalog) (file : String) : Option TileImage :=
  (tiles.find? (fun ft => ft.1 == file)).map Prod.snd

/-- The keys of the map. -/
def Catalog.keys (tiles : Catalog) : List String := tiles.map Prod.fst

/-! ## Rectangles and the canvas -/

/-- An `image.Rectangle`: `Min` inclusive, `Max` exclusive. -/
structure Rect where
  minX : Int
  minY : Int
  maxX : Int
  maxY : Int
deriving DecidableEq, Repr

/-- The constructor `image.Rect(x0, y0, x1, y1)`, which orders its corners. -/
def Rect.mk4 (x0 y0 x1 y1 : Int) : Rect :=
  { minX := min x0 x1, minY := min y0 y1, maxX := max x0 x1, maxY := max y0 y1 }

/-- The method `Rectangle.Empty`. -/
def Rect.Empty (r : Rect) : Bool := decide (r.minX ≥ r.maxX) || decide (r.minY ≥ r.maxY)

/-- The method `Rectangle.Intersect`; an empty intersection is the zero
rectangle. -/
def Rect.Intersect (r s : Rect) : Rect :=
  let t : Rect :=
    { minX := if r.minX < s.minX then s.minX else r.minX
      minY := if r.minY < s.minY then s.minY else r.minY
      maxX := if r.maxX > s.maxX then s.maxX else r.maxX
      maxY := if r.maxY > s.maxY then s.maxY else r.maxY }
  if t.Empty then { minX := 0, minY := 0, maxX := 0, maxY := 0 } else t

/-- The method `Rectangle.Add`: translation by a point. -/
def Rect.Add (r : Rect) (dx dy : Int) : Rect :=
  { minX := r.minX + dx, minY := r.minY + dy, maxX := r.maxX + dx, maxY := r.maxY + dy }

/-- The test `Point{x, y}.In(r)`. -/
def Rect.Has (r : Rect) (x y : Int) : Bool :=
  decide (r.minX ≤ x) && decide (x < r.maxX) && decide (r.minY ≤ y) && decide (y < r.maxY)

/-- The method `Bounds()` of an image. -/
def Image.Bounds (image : Image) : Rect :=
  { minX := image.minX, minY := image.minY, maxX := image.maxX, maxY := image.maxY }

/-- What a blit leaves in a canvas pixel: the colour copied from the tile, with
the cell task and the tile file that wrote it. -/
structure Paint where
  cellX : Int
  cellY : Int
  file : String
  colour : RGB
deriving DecidableEq, Repr

/-- The output image `newImage`; a pixel is `none` while it keeps the blank
value it got from `image.NewRGBA`. -/
structure Canvas where
  bounds : Rect
  pix : Int → Int → Option Paint

/-- The call `image.NewRGBA(image.Rect(x0, y0, x1, y1))`. -/
def NewRGBA (x0 y0 x1 y1 : Int) : Canvas :=
  { bounds := Rect.mk4 x0 y0 x1 y1, pix := fun _ _ => none }

/-- The rectangle that `draw.Draw(dst, r, src, sp, draw.Src)` writes: `r` clipped
to the bounds of `dst` and to the bounds of `src` moved so that `sp` lies on
`r.Min` (the function `clip` of `image/draw`). -/
def clipRect (dstBounds r srcBounds : Rect) (spX spY : Int) : Rect :=
  (r.Intersect dstBounds).Intersect (srcBounds.Add (r.minX - spX) (r.minY - spY))

/-- The call `draw.Draw(dst, r, src, sp, draw.Src)` made by the cell task at
`(cellX, cellY)` with the bitmap of tile `file`: every pixel of the clipped
rectangle is replaced by the source pixel aligned with it. -/
def Draw (dst : Canvas) (r : Rect) (src : Image) (spX spY : Int)
    (cellX cellY : Int) (file : String) : Canvas :=
  let c := clipRect dst.bounds r src.Bounds spX spY
  { bounds := dst.bounds
    pix := fun x y =>
      if c.Has x y then
        some { cellX := cellX, cellY := cellY, file := file,
               colour := src.At (spX + (x - r.minX)) (spY + (y - r.minY)) }
      else dst.pix x y }

/-! ## The cell loops -/

/-- The values of `v` in `for v := lo; v <= hi; v += step`, with a bound on the
number of evaluations of the loop condition; `none` when the bound is hit. -/
def forLoop : Nat → Int → Int → Int → Option (List Int)
  | 0, _, _, _ => none
  | fuel + 1, v, hi, step =>
    if v ≤ hi then (forLoop fuel (v + step) hi step).map (fun vs => v :: vs) else some []

/-- The cells `(x, y)` for which the body of the nested loops
`for y := yMin; y <= yMax; y += yDelta { for x := xMin; x <= xMax; x += xDelta`
runs, in the order of the loops. -/
def cellLoop : Nat → Nat → Int → Int → Int → Int → Int → Int → Option (List (Int × Int))
  | 0, _, _, _, _, _, _, _ => none
  | fuelY + 1, fuelX, xMin, y, xMax, yMax, xDelta, yDelta =>
    if y ≤ yMax then
      match forLoop fuelX xMin xMax xDelta with
      | none => none
      | some xs =>
        (cellLoop fuelY fuelX xMin (y + yDelta) xMax yMax xDelta yDelta).map
          (fun rest => xs.map (fun x => (x, y)) ++ rest)
    else some []

/-- The cells visited by the compositing loop, with a fuel that suffices whenever
both steps are positive. -/
def visitedCells (xMin yMin xMax yMax xDelta yDelta : Int) : Option (List (Int × Int)) :=
  cellLoop ((yMax - yMin).toNat + 2) ((xMax - xMin).toNat + 2)
    xMin yMin xMax yMax xDelta yDelta

/-- The destination rectangle
`image.Rectangle{image.Point{x, y}, image.Point{x + xDelta, y + yDelta}}`. -/
def cellRect (xDelta yDelta : Int) (c : Int × Int) : Rect :=
  { minX := c.1, minY := c.2, maxX := c.1 + xDelta, maxY := c.2 + yDelta }

/-! ## The filename filter -/

/-- The fragment of Go regular expressions used by `imagePattern`. -/
inductive Regex where
  | none : Regex
  | eps : Regex
  | char (c : Char) : Regex
  | anyNotNL : Regex
  | seq (a b : Regex) : Regex
  | alt (a b : Regex) : Regex
  | star (a : Regex) : Regex
deriving DecidableEq, Repr

/-- Whether the expression matches the empty text. -/
def Regex.nullable : Regex → Bool
  | .none => false
  | .eps => true
  | .char _ => false
  | .anyNotNL => false
  | .seq a b => a.nullable && b.nullable
  | .alt a b => a.nullable || b.nullable
  | .star _ => true

/-- The derivative of an expression by one character. -/
def Regex.deriv : Regex → Char → Regex
  | .none, _ => .none
  | .eps, _ => .none
  | .char d, c => if c = d then .eps else .none
  | .anyNotNL, c => if c = Char.ofNat 10 then .none else .eps
  | .seq a b, c =>
    if a.nullable then .alt (.seq (a.deriv c) b) (b.deriv c) else .seq (a.deriv c) b
  | .alt a b, c => .alt (a.deriv c) (b.deriv c)
  | .star a, c => .seq (a.deriv c) (.star a)

/-- Whether the whole text is matched by the expression. -/
def Regex.fullMatch (r : Regex) (s : List Char) : Bool :=
  (s.foldl Regex.deriv r).nullable

/-- The expression matching exactly the given text. -/
def Regex.lit (s : List Char) : Regex :=
  s.foldr (fun c r => Regex.seq (Regex.char c) r) Regex.eps

/-- The texts matched by an expression: `.` (without the flag `s`) is any
character but the line feed. -/
inductive Regex.Matches : Regex → List Char → Prop
  | eps : Regex.Matches .eps []
  | char (c : Char) : Regex.Matches (.char c) [c]
  | anyNotNL (c : Char) (h : c ≠ Char.ofNat 10) : Regex.Matches .anyNotNL [c]
  | seq {a b : Regex} {s t : List Char} (ha : Regex.Matches a s)
      (hb : Regex.Matches b t) : Regex.Matches (.seq a b) (s ++ t)
  | altL {a b : Regex} {s : List Char} (ha : Regex.Matches a s) :
      Regex.Matches (.alt a b) s
  | altR {a b : Regex} {s : List Char} (hb : Regex.Matches b s) :
      Regex.Matches (.alt a b) s
  | starNil {a : Regex} : Regex.Matches (.star a) []
  | starCons {a : Regex} {s t : List Char} (ha : Regex.Matches a s)
      (hs : Regex.Matches (.star a) t) : Regex.Matches (.star a) (s ++ t)

/-- The pattern `^.*\.(jpg|JPG|jpeg|JPEG)$`.  It starts with `^` and ends with
`$` (no flag `m`), so a match of it anywhere in a text is a match of the
expression between the anchors against the whole text. -/
def imagePattern : Regex :=
  .seq (.star .anyNotNL)
    (.seq (.char '.')
      (.alt (Regex.lit "jpg".toList)
        (.alt (Regex.lit "JPG".toList)
          (.alt (Regex.lit "jpeg".toList) (Regex.lit "JPEG".toList)))))

/-- The call `imagePattern.MatchString(filename)`. -/
def MatchString (r : Regex) (filename : String) : Bool :=
  r.fullMatch filename.toList

/-- The four accepted suffixes. -/
def imageSuffixes : List String := [".jpg", ".JPG", ".jpeg", ".JPEG"]

/-- Whether a file name ends, case-sensitively, with one of the four suffixes. -/
def hasImageSuffix (filename : String) : Prop :=
  ∃ suffix ∈ imageSuffixes, suffix.toList <:+ filename.toList

/-! ## The environment and the observable steps of a run -/

/-- Everything a run reads from outside the program. -/
structure Env where
  /-- The value of the flag `-t`. -/
  tilesCount : Int
  /-- The names returned by `ioutil.ReadDir("./images")`; `none` on error. -/
  readDir : Option (List String)
  /-- Whether `os.Open(*imageFile)` succeeds. -/
  openImage : Bool
  /-- The result of `jpeg.Decode` on the source; `none` is the nil image of a
  failed decode, whose error the code does not inspect. -/
  origImage : Option Image
  /-- Whether `os.Open(imageDir + filename)` succeeds. -/
  openTile : String → Bool
  /-- The result of `jpeg.Decode` on a tile file; `none` on error. -/
  decodeTile : String → Option Image
  /-- The call `resize.Resize(uint(xDelta), 0, tileImage, resize.Lanczos3)`. -/
  resize : Int → Image → Image
  /-- The order in which `range tiles` visits the map in the cell task `(x, y)`. -/
  rangeTiles : Int → Int → (tiles : Catalog) → { order : Catalog // order.Perm tiles }
  /-- Whether `os.Create("mosaic.jpg")` succeeds. -/
  createMosaic : Bool

/-- The steps of a run that the claims speak about. -/
inductive Event where
  | readDir : Event
  | openImage : Event
  | decodeImage : Event
  | openTile (filename : String) : Event
  | decodeTile (filename : String) : Event
  | resizeTile (filename : String) : Event
  | averageTile (filename : String) : Event
  | newCanvas : Event
  | sampleCell (x y : Int) : Event
  | drawCell (x y : Int) (file : String) : Event
  | createMosaic : Event
  | encodeMosaic : Event
deriving DecidableEq, Repr

/-- How a run ends. -/
inductive Exit where
  /-- The function `main` returns. -/
  | ok : Exit
  /-- `log.Fatal(err)` after `ioutil.ReadDir`. -/
  | fatalReadDir : Exit
  /-- `log.Fatal("#### ", err)` after `os.Open(*imageFile)`. -/
  | fatalOpenImage : Exit
  /-- `log.Fatalf("\nERROR: xDelta=%d, yDelta=%d\n\tmust be > 0\n\n", ...)`. -/
  | fatalDimension : Exit
  /-- `log.Fatal(err)` after `os.Open(imageDir + filename)` (`main_mutex.go`). -/
  | fatalOpenTile (filename : String) : Exit
  /-- `log.Fatal(err)` after `os.Create("mosaic.jpg")`. -/
  | fatalCreateMosaic : Exit
  /-- The run-time panic of `origImage.Bounds()` on a nil image. -/
  | panicNilImage : Exit
  /-- The run-time panic of an integer division by zero. -/
  | panicDivideByZero : Exit
  /-- The run-time panic of `tiles[nearestFilename].scaled` on a missing key. -/
  | panicNilTile (nearestFilename : String) : Exit
  /-- The cell loops do not end. -/
  | hang : Exit
deriving DecidableEq, Repr

/-- The record of a run. -/
structure Run where
  trace : List Event
  exit : Exit
  tiles : Catalog
  canvas : Option Canvas

/-- The assignment `tiles[filename] = tile`. -/
def Catalog.set : Catalog → String → TileImage → Catalog
  | [], filename, tile => [(filename, tile)]
  | (k, v) :: rest, filename, tile =>
    if k = filename then (filename, tile) :: rest
    else (k, v) :: Catalog.set rest filename tile

/-! ## Compositing -/

/-- The body of the goroutine `func(x int, y int)` up to and including
`draw.Draw`; `tiles` is listed in the order of this task's `range`.  The source
point is `image.Point{xMin, yMin}` with `xMin, yMin` the origin of the source
image in `main_channels.go` and the fields of the selected tile in
`main_mutex.go`; `sp` gives it.  The result is the selected file with the new
canvas, or the file alone when `tiles[nearestFilename]` is nil. -/
def cellTask (tiles : Catalog) (origImage : Image) (sp : TileImage → Int × Int)
    (xDelta yDelta : Int) (newImage : Canvas) (x y : Int) : String × Option Canvas :=
  let origRGB := getImageColour origImage x y (x + xDelta) (y + yDelta)
  let file := nearestFilename tiles origRGB
  match tiles.get file with
  | none => (file, none)
  | some tile =>
    (file, some (Draw newImage (cellRect xDelta yDelta (x, y)) tile.scaled
      (sp tile).1 (sp tile).2 x y file))

/-- The cell tasks of the compositing loop, one after the other.  The run stops
at the first task that panics. -/
def runCells (env : Env) (tiles : Catalog) (origImage : Image) (sp : TileImage → Int × Int)
    (xDelta yDelta : Int) : List (Int × Int) → Canvas → List Event × Exit × Canvas
  | [], newImage => ([], Exit.ok, newImage)
  | (x, y) :: rest, newImage =>
    match cellTask (env.rangeTiles x y tiles).1 origImage sp xDelta yDelta newImage x y with
    | (file, none) => ([Event.sampleCell x y], Exit.panicNilTile file, newImage)
    | (file, some drawn) =>
      let r := runCells env tiles origImage sp xDelta yDelta rest drawn
      (Event.sampleCell x y :: Event.drawCell x y file :: r.1, r.2.1, r.2.2)

/-- From `newImage := image.NewRGBA(...)` to the end of `main`: the part shared
by `main_channels.go` and `main_mutex.go`. -/
def composite (env : Env) (tiles : Catalog) (origImage : Image) (sp : TileImage → Int × Int)
    (xDelta yDelta : Int) (before : List Event) : Run :=
  let xMin := origImage.minX
  let xMax := origImage.maxX
  let yMin := origImage.minY
  let yMax := origImage.maxY
  let newImage := NewRGBA xMin yMin xMax yMax
  match visitedCells xMin yMin xMax yMax xDelta yDelta with
  | none =>
    { trace := before ++ [Event.newCanvas], exit := Exit.hang, tiles := tiles,
      canvas := some newImage }
  | some cells =>
    let r := runCells env tiles origImage sp xDelta yDelta cells newImage
    match r.2.1 with
    | Exit.ok =>
      if env.createMosaic then
        { trace := before ++ Event.newCanvas :: r.1 ++ [Event.createMosaic, Event.encodeMosaic],
          exit := Exit.ok, tiles := tiles, canvas := some r.2.2 }
      else
        { trace := before ++ Event.newCanvas :: r.1 ++ [Event.createMosaic],
          exit := Exit.fatalCreateMosaic, tiles := tiles, canvas := some r.2.2 }
    | e =>
      { trace := before ++ Event.newCanvas :: r.1, exit := e, tiles := tiles,
        canvas := some r.2.2 }

/-! ## The catalog build of `main_channels.go` -/

/-- The function `getTileColour` of `main_channels.go`: the tile sent on the
channel `tileData`. -/
def getTileColour (env : Env) (xDelta : Int) (tileImage : Image) : TileImage :=
  let resizedTile := env.resize xDelta tileImage
  let xMin := resizedTile.minX
  let xMax := resizedTile.maxX
  let yMin := resizedTile.minY
  let yMax := resizedTile.maxY
  let averageRGB := getImageColour resizedTile xMin yMin xMax yMax
  { xMin := tileImage.minX, yMin := tileImage.minY, averageRGB := averageRGB,
    scaled := resizedTile }

/-- The loop `for _, fileTile := range tileFiles` of `main_channels.go` with the
goroutines it starts: the steps taken and the messages sent on `tileData`. -/
def buildChannels (env : Env) (xDelta : Int) :
    List String → List Event × List (String × TileImage)
  | [] => ([], [])
  | filename :: rest =>
    let r := buildChannels env xDelta rest
    if !MatchString imagePattern filename then r
    else if !env.openTile filename then (Event.openTile filename :: r.1, r.2)
    else
      match env.decodeTile filename with
      | none => (Event.openTile filename :: Event.decodeTile filename :: r.1, r.2)
      | some tileImage =>
        (Event.openTile filename :: Event.decodeTile filename ::
          Event.resizeTile filename :: Event.averageTile filename :: r.1,
          (filename, getTileColour env xDelta tileImage) :: r.2)

/-- The loop `for m := range tileData { tiles[m.filename] = m.tile }`. -/
def collectTiles (messages : List (String × TileImage)) : Catalog :=
  messages.foldl (fun tiles m => Catalog.set tiles m.1 m.2) []

/-- The function `main` of `main_channels.go`. -/
def mainChannels (env : Env) : Run :=
  match env.readDir with
  | none => { trace := [Event.readDir], exit := Exit.fatalReadDir, tiles := [], canvas := none }
  | some tileFiles =>
    if !env.openImage then
      { trace := [Event.readDir, Event.openImage], exit := Exit.fatalOpenImage,
        tiles := [], canvas := none }
    else
      match env.origImage with
      | none =>
        { trace := [Event.readDir, Event.openImage, Event.decodeImage],
          exit := Exit.panicNilImage, tiles := [], canvas := none }
      | some origImage =>
        let xMin := origImage.minX
        let xMax := origImage.maxX
        let yMin := origImage.minY
        let yMax := origImage.maxY
        if env.tilesCount = 0 then
          { trace := [Event.readDir, Event.openImage, Event.decodeImage],
            exit := Exit.panicDivideByZero, tiles := [], canvas := none }
        else
          let xDelta := Int.tdiv (xMax - xMin) env.tilesCount
          let yDelta := Int.tdiv (yMax - yMin) env.tilesCount
          if xDelta ≤ 0 ∨ yDelta ≤ 0 then
            { trace := [Event.readDir, Event.openImage, Event.decodeImage],
              exit := Exit.fatalDimension, tiles := [], canvas := none }
          else
            let built := buildChannels env xDelta tileFiles
            let tiles := collectTiles built.2
            composite env tiles origImage (fun _ => (xMin, yMin)) xDelta yDelta
              ([Event.readDir, Event.openImage, Event.decodeImage] ++ built.1)

/-! ## The catalog build of `main_mutex.go` -/

/-- What one call of the method `getTileColour` of `main_mutex.go` does. -/
inductive TileResult where
  /-- The method returns without touching the map. -/
  | skipped : TileResult
  /-- The method ends the process with `log.Fatal(err)`. -/
  | fatal : TileResult
  /-- The method stores the tile under `tiles[filename]`. -/
  | stored (tile : TileImage) : TileResult

/-- The method `(*TileImage).getTileColour` of `main_mutex.go`.  The three sums
run over the bounds of `resizedTile` and read the pixels of `tileImage`. -/
def getTileColourMutex (env : Env) (xDelta : Int) (filename : String) :
    List Event × TileResult :=
  if !MatchString imagePattern filename then ([], TileResult.skipped)
  else if !env.openTile filename then ([Event.openTile filename], TileResult.fatal)
  else
    match env.decodeTile filename with
    | none => ([Event.openTile filename, Event.decodeTile filename], TileResult.skipped)
    | some tileImage =>
      let resizedTile := env.resize xDelta tileImage
      let xMin := resizedTile.minX
      let xMax := resizedTile.maxX
      let yMin := resizedTile.minY
      let yMax := resizedTile.maxY
      let s := sumRegion tileImage xMin yMin xMax yMax
      let pixelCount := toUint32 ((xMax - xMin) * (yMax - yMin))
      let averageRGB : Option AvgRGB :=
        if pixelCount = 0 then none
        else some
          { r := (s.r : ℚ) / (pixelCount : ℚ)
            g := (s.g : ℚ) / (pixelCount : ℚ)
            b := (s.b : ℚ) / (pixelCount : ℚ) }
      ([Event.openTile filename, Event.decodeTile filename, Event.resizeTile filename,
        Event.averageTile filename],
        TileResult.stored
          { xMin := tileImage.minX, yMin := tileImage.minY, averageRGB := averageRGB,
            scaled := resizedTile })

/-- The loop `for _, tile := range tileFiles` of `main_mutex.go` with the
goroutines it starts, up to `wg.Wait()`: the steps taken, the file whose
`log.Fatal` ended the process if there is one, and the map `tiles`. -/
def buildMutex (env : Env) (xDelta : Int) :
    List String → Catalog → List Event × Option String × Catalog
  | [], tiles => ([], none, tiles)
  | filename :: rest, tiles =>
    match getTileColourMutex env xDelta filename with
    | (evs, TileResult.skipped) =>
      let r := buildMutex env xDelta rest tiles
      (evs ++ r.1, r.2.1, r.2.2)
    | (evs, TileResult.fatal) => (evs, some filename, tiles)
    | (evs, TileResult.stored tile) =>
      let r := buildMutex env xDelta rest (Catalog.set tiles filename tile)
      (evs ++ r.1, r.2.1, r.2.2)

/-- The function `main` of `main_mutex.go`. -/
def mainMutex (env : Env) : Run :=
  match env.readDir with
  | none => { trace := [Event.readDir], exit := Exit.fatalReadDir, tiles := [], canvas := none }
  | some tileFiles =>
    if !env.openImage then
      { trace := [Event.readDir, Event.openImage], exit := Exit.fatalOpenImage,
        tiles := [], canvas := none }
    else
      match env.origImage with
      | none =>
        { trace := [Event.readDir, Event.openImage, Event.decodeImage],
          exit := Exit.panicNilImage, tiles := [], canvas := none }
      | some origImage =>
        let xMin := origImage.minX
        let xMax := origImage.maxX
        let yMin := origImage.minY
        let yMax := origImage.maxY
        if env.tilesCount = 0 then
          { trace := [Event.readDir, Event.openImage, Event.decodeImage],
            exit := Exit.panicDivideByZero, tiles := [], canvas := none }
        else
          let xDelta := Int.tdiv (xMax - xMin) env.tilesCount
          let yDelta := Int.tdiv (yMax - yMin) env.tilesCount
          if xDelta ≤ 0 ∨ yDelta ≤ 0 then
            { trace := [Event.readDir, Event.openImage, Event.decodeImage],
              exit := Exit.fatalDimension, tiles := [], canvas := none }
          else
            let built := buildMutex env xDelta tileFiles []
            match built.2.1 with
            | some filename =>
              { trace := [Event.readDir, Event.openImage, Event.decodeImage] ++ built.1,
                exit := Exit.fatalOpenTile filename, tiles := built.2.2, canvas := none }
            | none =>
              composite env built.2.2 origImage (fun tile => (tile.xMin, tile.yMin))
                xDelta yDelta
                ([Event.readDir, Event.openImage, Event.decodeImage] ++ built.1)

/-- Whether a step opens, decodes, resizes or averages a tile file. -/
def Event.isTileStep : Event → Bool
  | .openTile _ => true
  | .decodeTile _ => true
  | .resizeTile _ => true
  | .averageTile _ => true
  | _ => false

/-- Whether a step draws a cell. -/
def Event.isDraw : Event → Bool
  | .drawCell _ _ _ => true
  | _ => false

/-! ## The cell loops in closed form -/

/-- The number of iterations of `for v := lo; v <= hi; v += step` for a positive
step. -/
def loopCount (lo hi step : Int) : Nat := ((hi + step - lo) / step).toNat

/-- The values of the loop variable in closed form. -/
def loopValues (lo hi step : Int) : List Int :=
  (List.range (loopCount lo hi step)).map (fun (k : Nat) => lo + (k : Int) * step)

/-- The cells of the nested loops in closed form. -/
def gridCells (xMin yMin xMax yMax xDelta yDelta : Int) : List (Int × Int) :=
  (loopValues yMin yMax yDelta).flatMap
    (fun y => (loopValues xMin xMax xDelta).map (fun x => (x, y)))

/-- The destination rectangle of a cell intersected with the bounds of the
`W x H` canvas, as the first step of `draw.Draw` computes it. -/
def clippedCell (W H xDelta yDelta : Int) (c : Int × Int) : Rect :=
  (cellRect xDelta yDelta c).Intersect (NewRGBA 0 0 W H).bounds

/-! ## The canvas after compositing -/

/-- The pixels of a bitmap: the points of its bounds, `Min` inclusive and `Max`
exclusive, row by row. -/
def Image.pixels (bitmap : Image) : List (Int × Int) :=
  (rangeIncl bitmap.minY (bitmap.maxY - 1)).flatMap
    (fun y => (rangeIncl bitmap.minX (bitmap.maxX - 1)).map (fun x => (x, y)))

/-- The colour average of a bitmap as the specification words it: for every
channel the sum of the channel over the pixels of the bitmap, across its full
extent, divided by the number of pixels; `none` for a bitmap without pixels. -/
def specBitmapAverage (bitmap : Image) : Option AvgRGB :=
  let ps := bitmap.pixels
  if ps.length = 0 then none
  else some
    { r := (((ps.map (fun p => (bitmap.At p.1 p.2).r)).sum : Nat) : ℚ) / (ps.length : ℚ)
      g := (((ps.map (fun p => (bitmap.At p.1 p.2).g)).sum : Nat) : ℚ) / (ps.length : ℚ)
      b := (((ps.map (fun p => (bitmap.At p.1 p.2).b)).sum : Nat) : ℚ) / (ps.length : ℚ) }

/-! ## The matching loop of `main_nonconc.go` and `main_conc.go` -/

/-- The conversion `uint8(v)` of a `uint32`: the low byte of `v`. -/
def toUint8 (v : Nat) : Nat := v % 256

/-- The difference `a - b` of two `uint8` values, which wraps around modulo `2^8`. -/
def subUint8 (a b : Nat) : Nat := (((a : Int) - (b : Int)) % 256).toNat

/-- The argument of `math.Sqrt` in the matching loop of `main_nonconc.go` and
`main_conc.go`, for the cell colour `(rOrig, gOrig, bOrig)` and the tile colour
`(r, g, b)`.  The three `uint8` differences are at most 255, so their squares and
the sum of the squares are exact in `float64`. -/
def Nonconc.tileVectorDiffSq (orig colour : RGB) : Nat :=
  subUint8 (toUint8 orig.r) (toUint8 colour.r) ^ 2 +
    subUint8 (toUint8 orig.g) (toUint8 colour.g) ^ 2 +
    subUint8 (toUint8 orig.b) (toUint8 colour.b) ^ 2

/-- The square of the Euclidean distance as the specification words it:
`dr^2 + dg^2 + db^2` for the integer differences of the 8-bit channel values. -/
def specVectorDiffSq (orig colour : RGB) : Int :=
  ((toUint8 orig.r : Int) - (toUint8 colour.r : Int)) ^ 2 +
    ((toUint8 orig.g : Int) - (toUint8 colour.g : Int)) ^ 2 +
    ((toUint8 orig.b : Int) - (toUint8 colour.b : Int)) ^ 2

/-- The map `tileImages` of `main_nonconc.go` and `main_conc.go`, every colour
given by its `RGBA()`, listed in the order in which `range` visits it. -/
abbrev ColourMap := List (String × RGB)

/-- The square of the initial `smallestDiff := 999999.0`. -/
def Nonconc.smallestDiffInitSq : Nat := 999999 ^ 2

/-- One iteration of `for tile, colour := range tileImages`, on the state
`(nearestTile, smallestDiff^2)`.  The square roots of two integers below `2^18`
differ by more than the rounding of `math.Sqrt`, so `<` on the roots is `<` on the
squares. -/
def Nonconc.matchStep (orig : RGB) (st : String × Nat) (tc : String × RGB) : String × Nat :=
  if Nonconc.tileVectorDiffSq orig tc.2 < st.2 then
    (tc.1, Nonconc.tileVectorDiffSq orig tc.2)
  else st

/-- The value of `nearestTile` after the matching loop. -/
def Nonconc.nearestTile (tileImages : ColourMap) (orig : RGB) : String :=
  (tileImages.foldl (Nonconc.matchStep orig) ("", Nonconc.smallestDiffInitSq)).1

/-! ## The nested loops of `main_nonconc.go` and `main_conc.go` -/

/-- How the body of the nested loops ends. -/
inductive Nonconc.BodyEnd where
  /-- The body reaches `file.Close()` and the loop goes on. -/
  | completed : Nonconc.BodyEnd
  /-- The call `os.Open(imageDir + nearestTile)` fails and `log.Fatal(err)` ends
  the process. -/
  | fatalOpen : Nonconc.BodyEnd
  /-- The decode fails, its error is not inspected, and `resize.Resize` panics on
  the nil image. -/
  | panicResize : Nonconc.BodyEnd
deriving DecidableEq, Repr

/-- The body of the nested loops at the cell `(x, y)`: the matching loop on the
corner pixel `origImage.At(x, y)`, then `os.Open` and `jpeg.Decode` on the chosen
file.  The result is `nearestTile` with the way the body ends; the calls
`resize.Resize` on a decoded image and `draw.Draw` always return. -/
def Nonconc.cellBody (env : Env) (tileImages : ColourMap) (origImage : Image) (x y : Int) :
    String × Nonconc.BodyEnd :=
  let nearestTile := Nonconc.nearestTile tileImages (origImage.At x y)
  if !env.openTile nearestTile then (nearestTile, Nonconc.BodyEnd.fatalOpen)
  else
    match env.decodeTile nearestTile with
    | none => (nearestTile, Nonconc.BodyEnd.panicResize)
    | some _ => (nearestTile, Nonconc.BodyEnd.completed)

/-- The nested loops of `main_nonconc.go` and `main_conc.go` from
`xDelta := int((xMax - xMin) / (*tilesCount))` on, for `tilesCount` other than 0:
the cells for which the body runs when no body ends the process, with bounds on
the numbers of evaluations of the two loop conditions; `none` when a bound is hit.
Neither variant checks the two steps before the loops. -/
def Nonconc.cells (fuelY fuelX : Nat) (origImage : Image) (tilesCount : Int) :
    Option (List (Int × Int)) :=
  let xMin := origImage.minX
  let xMax := origImage.maxX
  let yMin := origImage.minY
  let yMax := origImage.maxY
  let xDelta := Int.tdiv (xMax - xMin) tilesCount
  let yDelta := Int.tdiv (yMax - yMin) tilesCount
  cellLoop fuelY fuelX xMin yMin xMax yMax xDelta yDelta

/-! ## Concrete inputs -/

/-- A 2 x 2 bitmap all of whose channel values are 100. -/
def greyImage : Image :=
  { minX := 0, minY := 0, maxX := 2, maxY := 2, At := fun _ _ => { r := 100, g := 100, b := 100 } }

/-- A `w x h` bitmap of one colour with origin `(0, 0)`, whose `At` returns the
zero colour outside the bounds, as the `RGBA` image types of Go do. -/
def solidImage (w h : Int) (c : RGB) : Image :=
  { minX := 0, minY := 0, maxX := w, maxY := h,
    At := fun x y => if 0 ≤ x ∧ x < w ∧ 0 ≤ y ∧ y < h then c else { r := 0, g := 0, b := 0 } }

/-- A run on a source image of width 5 and height 100 with `-t 10`. -/
def narrowEnv : Env :=
  { tilesCount := 10, readDir := some ["a.jpg"], openImage := true,
    origImage := some (solidImage 5 100 { r := 65535, g := 0, b := 0 }),
    openTile := fun _ => true,
    decodeTile := fun _ => some (solidImage 20 20 { r := 65535, g := 0, b := 0 }),
    resize := fun w _ => solidImage w w { r := 65535, g := 0, b := 0 },
    rangeTiles := fun _ _ tiles => ⟨tiles, List.Perm.refl tiles⟩, createMosaic := true }

/-- A run on a 2 x 2 source image with `-t 1` in a tile directory that holds no
image file. -/
def noTilesEnv : Env :=
  { tilesCount := 1, readDir := some ["notes.txt"], openImage := true,
    origImage := some (solidImage 2 2 { r := 65535, g := 0, b := 0 }),
    openTile := fun _ => true,
    decodeTile := fun _ => none,
    resize := fun _ image => image,
    rangeTiles := fun _ _ tiles => ⟨tiles, List.Perm.refl tiles⟩, createMosaic := true }

/-- A file name with a line feed in it that ends with `.jpg`. -/
def lineFeedName : String := String.mk ['a', Char.ofNat 10, '.', 'j', 'p', 'g']

/-- A run in which the tile file `a.jpg` cannot be opened and `b.jpg` can. -/
def lockedEnv : Env :=
  { tilesCount := 1, readDir := some ["a.jpg", "b.jpg"], openImage := true,
    origImage := some (solidImage 2 2 { r := 65535, g := 0, b := 0 }),
    openTile := fun filename => filename != "a.jpg",
    decodeTile := fun _ => some (solidImage 4 4 { r := 65535, g := 0, b := 0 }),
    resize := fun w _ => solidImage w w { r := 65535, g := 0, b := 0 },
    rangeTiles := fun _ _ tiles => ⟨tiles, List.Perm.refl tiles⟩, createMosaic := true }

/-- Solid red. -/
def red : RGB := { r := 65535, g := 0, b := 0 }

/-- Solid blue. -/
def blue : RGB := { r := 0, g := 0, b := 65535 }

/-- A run on a 100 x 100 solid red source with `-t 10` and the two tile files
`red.jpg` and `blue.jpg`, solid 20 x 20 bitmaps whose resized bitmaps are solid;
`range tiles` visits the map in the reverse of the insertion order. -/
def redBlueEnv : Env :=
  { tilesCount := 10, readDir := some ["red.jpg", "blue.jpg"], openImage := true,
    origImage := some (solidImage 100 100 red),
    openTile := fun _ => true,
    decodeTile := fun filename =>
      if filename = "red.jpg" then some (solidImage 20 20 red) else some (solidImage 20 20 blue),
    resize := fun w tileImage => solidImage w w (tileImage.At 0 0),
    rangeTiles := fun _ _ tiles => ⟨tiles.reverse, List.reverse_perm tiles⟩,
    createMosaic := true }

/-- The catalog that `main_channels.go` builds in the run `redBlueEnv`. -/
def redBlueTiles : Catalog :=
  collectTiles (buildChannels redBlueEnv 10 ["red.jpg", "blue.jpg"]).2

/-- A `w x h` bitmap of one colour with origin `(0, 0)`, whose `At` returns
`(0, 34678, 0)` outside the bounds: the `RGBA()` of the zero `color.YCbCr` that
`image.YCbCr`, the type of a decoded colour JPEG, returns there. -/
def solidYCbCr (w h : Int) (c : RGB) : Image :=
  { minX := 0, minY := 0, maxX := w, maxY := h,
    At := fun x y =>
      if 0 ≤ x ∧ x < w ∧ 0 ≤ y ∧ y < h then c else { r := 0, g := 34678, b := 0 } }

/-- The run `redBlueEnv` with bitmaps of the kind `solidYCbCr`. -/
def redBlueYCbCrEnv : Env :=
  { tilesCount := 10, readDir := some ["red.jpg", "blue.jpg"], openImage := true,
    origImage := some (solidYCbCr 100 100 red),
    openTile := fun _ => true,
    decodeTile := fun filename =>
      if filename = "red.jpg" then some (solidYCbCr 20 20 red) else some (solidYCbCr 20 20 blue),
    resize := fun w tileImage => solidYCbCr w w (tileImage.At 0 0),
    rangeTiles := fun _ _ tiles => ⟨tiles.reverse, List.reverse_perm tiles⟩,
    createMosaic := true }

/-- A 4 x 4 tile bitmap whose two left columns are black and whose two right
columns are white. -/
def halvesTile : Image :=
  { minX := 0, minY := 0, maxX := 4, maxY := 4,
    At := fun x y =>
      if 0 ≤ x ∧ x < 4 ∧ 0 ≤ y ∧ y < 4 then
        if x < 2 then { r := 0, g := 0, b := 0 } else { r := 65535, g := 65535, b := 65535 }
      else { r := 0, g := 0, b := 0 } }

/-- A resize to the width `w` that keeps the aspect ratio and samples the pixels
of the tile at equal distances. -/
def sampleResize (w : Int) (tileImage : Image) : Image :=
  let h := (7 * tileImage.maxX + 10 * (tileImage.maxY * w)) / (10 * tileImage.maxX)
  { minX := 0, minY := 0, maxX := w, maxY := h,
    At := fun x y =>
      if 0 ≤ x ∧ x < w ∧ 0 ≤ y ∧ y < h then
        tileImage.At (x * tileImage.maxX / w) (y * tileImage.maxY / h)
      else { r := 0, g := 0, b := 0 } }

/-- A run on a 2 x 2 source with `-t 1` and the one tile file `a.jpg`, which
decodes to `halvesTile`. -/
def halvesEnv : Env :=
  { tilesCount := 1, readDir := some ["a.jpg"], openImage := true,
    origImage := some (solidImage 2 2 red),
    openTile := fun _ => true,
    decodeTile := fun _ => some halvesTile,
    resize := sampleResize,
    rangeTiles := fun _ _ tiles => ⟨tiles, List.Perm.refl tiles⟩, createMosaic := true }

/-- A map of two tiles whose corner pixels have the 8-bit red values 1 and 100. -/
def nearFarColours : ColourMap :=
  [("near.jpg", { r := 257, g := 0, b := 0 }), ("far.jpg", { r := 25700, g := 0, b := 0 })]

/-- The map `tileImages` of a tile directory with the one file `a.jpg`, whose
corner pixel is red. -/
def oneRedColour : ColourMap := [("a.jpg", red)]

/-! # Theorems -/

/-! ## C1: the matching loop -/

/-- C2: on the 2 x 2 bitmap `greyImage`, all of whose channel values are 100, and
the region `[0,1] x [0,1]`, the loops of `getImageColour` sum four pixels (400 per
channel) and the function divides by `pixelCount = (1-0)*(1-0) = 1`: it returns
400 per channel, where the sum divided by the number of pixels summed is 100. -/
theorem getImageColour_divisor_mismatch :
    regionPixels 0 0 1 1 = 4 ∧
    sumRegion greyImage 0 0 1 1 = { r := 400, g := 400, b := 400 } ∧
    getImageColour greyImage 0 0 1 1 = some { r := 400, g := 400, b := 400 } ∧
    specImageColour greyImage 0 0 1 1 = { r := 100, g := 100, b := 100 } :=
  ⟨by decide, by decide, by decide!, by decide!⟩

/-! ## C3: the dimension check -/

/-- C3: in `main_channels.go` and in `main_mutex.go`, when the directory was
listed, the source image opened and decoded and the tile count is not zero, if the
integer quotient `W / T` or `H / T` is `<= 0` then the run ends with the dimension
error after exactly the three steps list directory, open source, decode source:
no tile file has been opened, decoded, resized or averaged, the catalog is empty,
no canvas exists and no cell has been drawn. -/
theorem dimension_error_first (env : Env) (tileFiles : List String) (origImage : Image)
    (hdir : env.readDir = some tileFiles) (hopen : env.openImage = true)
    (himg : env.origImage = some origImage) (hT : env.tilesCount ≠ 0)
    (hq : Int.tdiv (origImage.maxX - origImage.minX) env.tilesCount ≤ 0 ∨
      Int.tdiv (origImage.maxY - origImage.minY) env.tilesCount ≤ 0) :
    ((mainChannels env).exit = Exit.fatalDimension ∧
      (mainChannels env).trace = [Event.readDir, Event.openImage, Event.decodeImage] ∧
      (∀ e ∈ (mainChannels env).trace, e.isTileStep = false ∧ e.isDraw = false) ∧
      (mainChannels env).tiles = [] ∧ (mainChannels env).canvas = none) ∧
    ((mainMutex env).exit = Exit.fatalDimension ∧
      (mainMutex env).trace = [Event.readDir, Event.openImage, Event.decodeImage] ∧
      (∀ e ∈ (mainMutex env).trace, e.isTileStep = false ∧ e.isDraw = false) ∧
      (mainMutex env).tiles = [] ∧ (mainMutex env).canvas = none) := by
  have hc : mainChannels env =
      { trace := [Event.readDir, Event.openImage, Event.decodeImage],
        exit := Exit.fatalDimension, tiles := [], canvas := none } := by
    simp [mainChannels, hdir, hopen, himg, hT, hq]
  have hm : mainMutex env =
      { trace := [Event.readDir, Event.openImage, Event.decodeImage],
        exit := Exit.fatalDimension, tiles := [], canvas := none } := by
    simp [mainMutex, hdir, hopen, himg, hT, hq]
  rw [hc, hm]
  simp [Event.isTileStep, Event.isDraw]

/-- C3 (witness): the run `narrowEnv`, whose source is 5 pixels wide for `-t 10`. -/
theorem dimension_error_first_witness :
    Int.tdiv ((solidImage 5 100 { r := 65535, g := 0, b := 0 }).maxX -
        (solidImage 5 100 { r := 65535, g := 0, b := 0 }).minX) narrowEnv.tilesCount = 0 ∧
    ((mainChannels narrowEnv).exit = Exit.fatalDimension ∧
      (mainChannels narrowEnv).trace = [Event.readDir, Event.openImage, Event.decodeImage]) ∧
    ((mainMutex narrowEnv).exit = Exit.fatalDimension ∧
      (mainMutex narrowEnv).trace = [Event.readDir, Event.openImage, Event.decodeImage]) :=
  have h := dimension_error_first narrowEnv ["a.jpg"]
    (solidImage 5 100 { r := 65535, g := 0, b := 0 }) rfl rfl rfl (by decide)
    (Or.inl (by decide))
  ⟨by decide, ⟨h.1.1, h.1.2.1⟩, ⟨h.2.1, h.2.2.1⟩⟩

/-! ## C7: the cells partition the canvas -/

theorem loopCount_of_gt {lo hi step : Int} (hs : 0 < step) (h : ¬ lo ≤ hi) :
    loopCount lo hi step = 0 := by
  unfold loopCount
  have h1 : (hi + step - lo) / step ≤ 0 := by
    have : (hi + step - lo) / step < 1 := by
      apply Int.ediv_lt_of_lt_mul hs
      omega
    omega
  omega

theorem loopCount_of_le {lo hi step : Int} (hs : 0 < step) (h : lo ≤ hi) :
    loopCount lo hi step = loopCount (lo + step) hi step + 1 := by
  unfold loopCount
  have e1 : hi + step - lo = (hi + step - (lo + step)) + 1 * step := by ring
  have h2 : (hi + step - lo) / step = (hi + step - (lo + step)) / step + 1 := by
    rw [e1, Int.add_mul_ediv_right _ _ (ne_of_gt hs)]
  have h3 : 0 ≤ (hi + step - (lo + step)) / step := by
    apply Int.ediv_nonneg <;> omega
  rw [h2]
  omega

theorem loopValues_of_le {lo hi step : Int} (hs : 0 < step) (h : lo ≤ hi) :
    loopValues lo hi step = lo :: loopValues (lo + step) hi step := by
  unfold loopValues
  rw [loopCount_of_le hs h, List.range_succ_eq_map]
  simp only [List.map_cons, List.map_map]
  congr 1
  · simp
  · refine List.map_congr_left (fun k _ => ?_)
    simp only [Function.comp, Nat.succ_eq_add_one]
    push_cast
    ring

theorem forLoop_eq (step : Int) (hs : 0 < step) :
    ∀ (fuel : Nat) (lo hi : Int), (hi + 1 - lo).toNat + 1 ≤ fuel →
      forLoop fuel lo hi step = some (loopValues lo hi step) := by
  intro fuel
  induction fuel with
  | zero => intro lo hi h; omega
  | succ n ih =>
    intro lo hi h
    unfold forLoop
    by_cases hle : lo ≤ hi
    · rw [if_pos hle, ih (lo + step) hi (by omega), loopValues_of_le hs hle]
      rfl
    · rw [if_neg hle]
      simp [loopValues, loopCount_of_gt hs hle]

theorem cellLoop_eq (xMin xMax yMax xDelta yDelta : Int) (hx : 0 < xDelta) (hy : 0 < yDelta)
    (fuelX : Nat) (hfx : (xMax + 1 - xMin).toNat + 1 ≤ fuelX) :
    ∀ (fuelY : Nat) (y : Int), (yMax + 1 - y).toNat + 1 ≤ fuelY →
      cellLoop fuelY fuelX xMin y xMax yMax xDelta yDelta =
        some (gridCells xMin y xMax yMax xDelta yDelta) := by
  intro fuelY
  induction fuelY with
  | zero => intro y h; omega
  | succ n ih =>
    intro y h
    unfold cellLoop
    by_cases hle : y ≤ yMax
    · rw [if_pos hle, forLoop_eq xDelta hx fuelX xMin xMax hfx]
      simp only
      rw [ih (y + yDelta) (by omega)]
      simp [gridCells, loopValues_of_le hy hle]
    · rw [if_neg hle]
      simp [gridCells, loopValues, loopCount_of_gt hy hle]

theorem visitedCells_eq (xMin yMin xMax yMax xDelta yDelta : Int)
    (hx : 0 < xDelta) (hy : 0 < yDelta) :
    visitedCells xMin yMin xMax yMax xDelta yDelta =
      some (gridCells xMin yMin xMax yMax xDelta yDelta) := by
  unfold visitedCells
  exact cellLoop_eq xMin xMax yMax xDelta yDelta hx hy _ (by omega) _ yMin (by omega)

theorem lt_loopCount_iff {lo hi step : Int} (hs : 0 < step) (k : Nat) :
    k < loopCount lo hi step ↔ lo + (k : Int) * step ≤ hi := by
  unfold loopCount
  have h1 : k < ((hi + step - lo) / step).toNat ↔ ((k : Int) + 1) ≤ (hi + step - lo) / step := by
    omega
  rw [h1, Int.le_ediv_iff_mul_le hs]
  constructor <;> intro h <;> nlinarith

theorem mem_loopValues {lo hi step : Int} (hs : 0 < step) (v : Int) :
    v ∈ loopValues lo hi step ↔ ∃ k : Nat, v = lo + (k : Int) * step ∧ v ≤ hi := by
  unfold loopValues
  simp only [List.mem_map, List.mem_range]
  constructor
  · rintro ⟨k, hk, rfl⟩
    exact ⟨k, rfl, (lt_loopCount_iff hs k).mp hk⟩
  · rintro ⟨k, rfl, hk⟩
    exact ⟨k, (lt_loopCount_iff hs k).mpr hk, rfl⟩

theorem mem_gridCells (xMin yMin xMax yMax xDelta yDelta : Int) (c : Int × Int) :
    c ∈ gridCells xMin yMin xMax yMax xDelta yDelta ↔
      c.1 ∈ loopValues xMin xMax xDelta ∧ c.2 ∈ loopValues yMin yMax yDelta := by
  obtain ⟨x, y⟩ := c
  simp only [gridCells, List.mem_flatMap, List.mem_map, Prod.mk.injEq]
  constructor
  · rintro ⟨y', hy', x', hx', rfl, rfl⟩
    exact ⟨hx', hy'⟩
  · rintro ⟨hx', hy'⟩
    exact ⟨y, hy', x, hx', rfl, rfl⟩

theorem loopValues_nodup {lo hi step : Int} (hs : 0 < step) :
    (loopValues lo hi step).Nodup := by
  unfold loopValues
  refine List.Nodup.map ?_ (List.nodup_range _)
  intro a b hab
  simp only at hab
  have : (a : Int) * step = (b : Int) * step := by linarith
  have := Int.eq_of_mul_eq_mul_right (ne_of_gt hs) this
  exact_mod_cast this

theorem gridCells_nodup (xMin yMin xMax yMax xDelta yDelta : Int)
    (hx : 0 < xDelta) (hy : 0 < yDelta) :
    (gridCells xMin yMin xMax yMax xDelta yDelta).Nodup := by
  unfold gridCells
  rw [List.nodup_flatMap]
  refine ⟨?_, ?_⟩
  · intro y _
    exact List.Nodup.map (fun a b h => by simpa using h) (loopValues_nodup hx)
  · refine List.Nodup.pairwise_of_forall_ne (loopValues_nodup hy) ?_
    intro y1 _ y2 _ hne
    intro c h1 h2
    simp only [List.mem_map] at h1 h2
    obtain ⟨_, _, rfl⟩ := h1
    obtain ⟨_, _, h⟩ := h2
    exact hne (by simpa using (congrArg Prod.snd h).symm)

theorem gridCells_length (xMin yMin xMax yMax xDelta yDelta : Int) :
    (gridCells xMin yMin xMax yMax xDelta yDelta).length =
      loopCount yMin yMax yDelta * loopCount xMin xMax xDelta := by
  simp [gridCells, loopValues, List.length_flatMap, Function.comp_def]

theorem Rect.Has_Intersect (r s : Rect) (x y : Int) :
    (r.Intersect s).Has x y = (r.Has x y && s.Has x y) := by
  rw [Bool.eq_iff_iff]
  simp only [Rect.Intersect, Rect.Empty, Rect.Has, Bool.and_eq_true, Bool.or_eq_true,
    decide_eq_true_eq]
  split_ifs <;> simp only [] <;> omega

theorem clippedCell_Has (W H xDelta yDelta : Int) (hW : 0 ≤ W) (hH : 0 ≤ H)
    (c : Int × Int) (x y : Int) :
    (clippedCell W H xDelta yDelta c).Has x y = true ↔
      (c.1 ≤ x ∧ x < c.1 + xDelta ∧ c.2 ≤ y ∧ y < c.2 + yDelta) ∧
        (0 ≤ x ∧ x < W ∧ 0 ≤ y ∧ y < H) := by
  unfold clippedCell
  rw [Rect.Has_Intersect]
  simp only [Rect.Has, cellRect, NewRGBA, Rect.mk4, Bool.and_eq_true, decide_eq_true_eq,
    min_eq_left hW, min_eq_left hH, max_eq_right hW, max_eq_right hH]
  tauto

theorem step_index_unique {s x : Int} (hs : 0 < s) {i j : Nat}
    (hi1 : (i : Int) * s ≤ x) (hi2 : x < (i : Int) * s + s)
    (hj1 : (j : Int) * s ≤ x) (hj2 : x < (j : Int) * s + s) : i = j := by
  rcases Nat.lt_trichotomy i j with h | h | h
  · exfalso
    have h1 : (i : Int) + 1 ≤ j := by exact_mod_cast h
    have : ((i : Int) + 1) * s ≤ (j : Int) * s := Int.mul_le_mul_of_nonneg_right h1 (le_of_lt hs)
    nlinarith
  · exact h
  · exfalso
    have h1 : (j : Int) + 1 ≤ i := by exact_mod_cast h
    have : ((j : Int) + 1) * s ≤ (i : Int) * s := Int.mul_le_mul_of_nonneg_right h1 (le_of_lt hs)
    nlinarith

/-- The cell whose destination rectangle holds a canvas pixel. -/
theorem cell_of_pixel {W s x : Int} (hs : 0 < s) (hx0 : 0 ≤ x) (hxW : x < W) :
    x / s * s ∈ loopValues 0 W s ∧ x / s * s ≤ x ∧ x < x / s * s + s := by
  have h1 : x / s * s ≤ x := Int.ediv_mul_le x (ne_of_gt hs)
  have h2 : x < x / s * s + s := by
    have := Int.lt_ediv_add_one_mul_self x hs
    linarith
  refine ⟨?_, h1, h2⟩
  rw [mem_loopValues hs]
  refine ⟨(x / s).toNat, ?_, by omega⟩
  have : 0 ≤ x / s := Int.ediv_nonneg hx0 (le_of_lt hs)
  rw [Int.toNat_of_nonneg this]
  ring

/-- C7: for every `W, H >= 1` and every `cellWidth, cellHeight > 0` the compositing
loop ends, visits every cell once, and the destination rectangles
`[x, x+cellWidth) x [y, y+cellHeight)` of the visited cells, each intersected with
the canvas bounds, partition the canvas: each lies inside `[0,W) x [0,H)`, those
of two distinct cells share no pixel, and every canvas pixel lies in exactly one
of them.  Nothing is assumed on the divisibility of `W` or `H`. -/
theorem cells_partition_canvas (W H cellWidth cellHeight : Int) (hW : 1 ≤ W) (hH : 1 ≤ H)
    (hcw : 0 < cellWidth) (hch : 0 < cellHeight) :
    ∃ cells, visitedCells 0 0 W H cellWidth cellHeight = some cells ∧ cells.Nodup ∧
      (∀ c ∈ cells, ∀ x y, (clippedCell W H cellWidth cellHeight c).Has x y = true →
        0 ≤ x ∧ x < W ∧ 0 ≤ y ∧ y < H) ∧
      (∀ c₁ ∈ cells, ∀ c₂ ∈ cells, c₁ ≠ c₂ → ∀ x y,
        ¬ ((clippedCell W H cellWidth cellHeight c₁).Has x y = true ∧
          (clippedCell W H cellWidth cellHeight c₂).Has x y = true)) ∧
      (∀ x y, 0 ≤ x → x < W → 0 ≤ y → y < H →
        ∃! c, c ∈ cells ∧ (clippedCell W H cellWidth cellHeight c).Has x y = true) := by
  have hW0 : 0 ≤ W := by omega
  have hH0 : 0 ≤ H := by omega
  have key : ∀ c₁ ∈ gridCells 0 0 W H cellWidth cellHeight,
      ∀ c₂ ∈ gridCells 0 0 W H cellWidth cellHeight, ∀ x y,
      (clippedCell W H cellWidth cellHeight c₁).Has x y = true →
      (clippedCell W H cellWidth cellHeight c₂).Has x y = true → c₁ = c₂ := by
    intro c₁ h₁ c₂ h₂ x y hp₁ hp₂
    rw [mem_gridCells] at h₁ h₂
    obtain ⟨i₁, hi₁, _⟩ := (mem_loopValues hcw _).mp h₁.1
    obtain ⟨j₁, hj₁, _⟩ := (mem_loopValues hch _).mp h₁.2
    obtain ⟨i₂, hi₂, _⟩ := (mem_loopValues hcw _).mp h₂.1
    obtain ⟨j₂, hj₂, _⟩ := (mem_loopValues hch _).mp h₂.2
    obtain ⟨⟨a1, a2, a3, a4⟩, _⟩ := (clippedCell_Has W H _ _ hW0 hH0 c₁ x y).mp hp₁
    obtain ⟨⟨b1, b2, b3, b4⟩, _⟩ := (clippedCell_Has W H _ _ hW0 hH0 c₂ x y).mp hp₂
    have ei : i₁ = i₂ :=
      step_index_unique hcw (x := x) (by linarith) (by linarith) (by linarith) (by linarith)
    have ej : j₁ = j₂ :=
      step_index_unique hch (x := y) (by linarith) (by linarith) (by linarith) (by linarith)
    subst ei ej
    exact Prod.ext (by rw [hi₁, hi₂]) (by rw [hj₁, hj₂])
  refine ⟨gridCells 0 0 W H cellWidth cellHeight, visitedCells_eq 0 0 W H _ _ hcw hch,
    gridCells_nodup 0 0 W H _ _ hcw hch, ?_, ?_, ?_⟩
  · intro c _ x y h
    exact ((clippedCell_Has W H _ _ hW0 hH0 c x y).mp h).2
  · intro c₁ h₁ c₂ h₂ hne x y ⟨hp₁, hp₂⟩
    exact hne (key c₁ h₁ c₂ h₂ x y hp₁ hp₂)
  · intro x y hx0 hxW hy0 hyH
    obtain ⟨mx, lx, ux⟩ := cell_of_pixel (W := W) hcw hx0 hxW
    obtain ⟨my, ly, uy⟩ := cell_of_pixel (W := H) hch hy0 hyH
    have hmem : (x / cellWidth * cellWidth, y / cellHeight * cellHeight) ∈
        gridCells 0 0 W H cellWidth cellHeight :=
      (mem_gridCells _ _ _ _ _ _ _).mpr ⟨mx, my⟩
    have hhas : (clippedCell W H cellWidth cellHeight
        (x / cellWidth * cellWidth, y / cellHeight * cellHeight)).Has x y = true :=
      (clippedCell_Has W H _ _ hW0 hH0 _ x y).mpr ⟨⟨lx, ux, ly, uy⟩, hx0, hxW, hy0, hyH⟩
    refine ⟨_, ⟨hmem, hhas⟩, ?_⟩
    rintro c ⟨hc, hp⟩
    exact key c hc _ hmem x y hp hhas

/-- C7 (witness): a 5 x 5 canvas with cells of 2 x 2 pixels. -/
theorem cells_partition_canvas_witness :
    ((1 : Int) ≤ 5 ∧ (0 : Int) < 2) ∧
    ∃ cells, visitedCells 0 0 5 5 2 2 = some cells ∧ cells.Nodup ∧
      (∀ c ∈ cells, ∀ x y, (clippedCell 5 5 2 2 c).Has x y = true →
        0 ≤ x ∧ x < 5 ∧ 0 ≤ y ∧ y < 5) ∧
      (∀ c₁ ∈ cells, ∀ c₂ ∈ cells, c₁ ≠ c₂ → ∀ x y,
        ¬ ((clippedCell 5 5 2 2 c₁).Has x y = true ∧ (clippedCell 5 5 2 2 c₂).Has x y = true)) ∧
      (∀ x y, 0 ≤ x → x < 5 → 0 ≤ y → y < 5 →
        ∃! c, c ∈ cells ∧ (clippedCell 5 5 2 2 c).Has x y = true) :=
  ⟨⟨by decide, by decide⟩,
    cells_partition_canvas 5 5 2 2 (by decide) (by decide) (by decide) (by decide)⟩

/-! ## C8: the number of cells -/

/-- The number of cells visited when both sides are multiples of the tile count:
`T + 1` per axis. -/
theorem visitedCells_multiple (T a b : Int) (hT : 1 ≤ T) (ha : 1 ≤ a) (hb : 1 ≤ b) :
    ∃ cells, visitedCells 0 0 (T * a) (T * b) (Int.tdiv (T * a) T) (Int.tdiv (T * b) T) =
        some cells ∧
      cells.length = (T.toNat + 1) * (T.toNat + 1) := by
  have hT0 : T ≠ 0 := by omega
  have ea : Int.tdiv (T * a) T = a := by
    rw [Int.tdiv_eq_ediv (by nlinarith) (by omega), Int.mul_ediv_cancel_left _ hT0]
  have eb : Int.tdiv (T * b) T = b := by
    rw [Int.tdiv_eq_ediv (by nlinarith) (by omega), Int.mul_ediv_cancel_left _ hT0]
  have cnt : ∀ s : Int, 1 ≤ s → loopCount 0 (T * s) s = T.toNat + 1 := by
    intro s hs
    unfold loopCount
    have : (T * s + s - 0) / s = T + 1 := by
      have e : T * s + s - 0 = (T + 1) * s := by ring
      rw [e, Int.mul_ediv_cancel _ (by omega)]
    rw [this]
    omega
  rw [ea, eb]
  refine ⟨_, visitedCells_eq 0 0 _ _ a b (by omega) (by omega), ?_⟩
  rw [gridCells_length, cnt a ha, cnt b hb]

/-- C8: on a 100 x 100 source image with `T = 10` the cell size is 10 x 10 and the
compositing loop visits 121 cells, 11 along each axis, not 100: the loops run
while `x <= xMax` and `y <= yMax`, so they also start the cells whose corner lies
on the right and on the bottom edge, such as `(100, 0)` and `(0, 100)`. -/
theorem visitedCells_100_10 :
    Int.tdiv (100 - 0) 10 = 10 ∧
    (visitedCells 0 0 100 100 (Int.tdiv (100 - 0) 10) (Int.tdiv (100 - 0) 10)).map List.length =
      some 121 ∧
    (visitedCells 0 0 100 100 (Int.tdiv (100 - 0) 10) (Int.tdiv (100 - 0) 10)).map
      (fun cells => decide ((100, 0) ∈ cells) && decide ((0, 100) ∈ cells)) = some true :=
  ⟨by decide, by decide, by decide⟩

/-! ## C4: the empty catalog -/

/-- C4, as stated, fails: with no image file in the tile directory the catalog is
empty after the build, and the run of `main_channels.go` still creates the canvas
and samples the cell `(0, 0)`; it ends in the nil dereference of `tiles[""]`, not
in an error raised for the empty catalog. -/
theorem empty_catalog_reaches_compositing :
    (mainChannels noTilesEnv).tiles.keys = [] ∧
    (mainChannels noTilesEnv).trace =
      [Event.readDir, Event.openImage, Event.decodeImage, Event.newCanvas,
        Event.sampleCell 0 0] ∧
    (mainChannels noTilesEnv).exit = Exit.panicNilTile "" :=
  ⟨by decide, by decide, by decide⟩

theorem gridCells_head (xMin yMin xMax yMax xDelta yDelta : Int)
    (hx : 0 < xDelta) (hy : 0 < yDelta) (hbx : xMin ≤ xMax) (hby : yMin ≤ yMax) :
    ∃ rest, gridCells xMin yMin xMax yMax xDelta yDelta = (xMin, yMin) :: rest := by
  unfold gridCells
  rw [loopValues_of_le hy hby, loopValues_of_le hx hbx]
  simp

theorem cellTask_nil (origImage : Image) (sp : TileImage → Int × Int)
    (xDelta yDelta : Int) (newImage : Canvas) (x y : Int) :
    cellTask [] origImage sp xDelta yDelta newImage x y = ("", none) := by
  simp [cellTask, nearestFilename, matchLoop, Catalog.get]

theorem rangeTiles_nil (env : Env) (x y : Int) : (env.rangeTiles x y []).1 = [] :=
  List.Perm.eq_nil (env.rangeTiles x y []).2

/-- With an empty catalog the run creates the canvas, starts the first cell task,
which samples its cell, and panics on `tiles[""]`. -/
theorem composite_nil (env : Env) (origImage : Image) (sp : TileImage → Int × Int)
    (xDelta yDelta : Int) (before : List Event)
    (hx : 0 < xDelta) (hy : 0 < yDelta)
    (hbx : origImage.minX ≤ origImage.maxX) (hby : origImage.minY ≤ origImage.maxY) :
    composite env [] origImage sp xDelta yDelta before =
      { trace := before ++
          [Event.newCanvas, Event.sampleCell origImage.minX origImage.minY],
        exit := Exit.panicNilTile "", tiles := [],
        canvas := some
          (NewRGBA origImage.minX origImage.minY origImage.maxX origImage.maxY) } := by
  obtain ⟨rest, hrest⟩ := gridCells_head origImage.minX origImage.minY origImage.maxX
    origImage.maxY xDelta yDelta hx hy hbx hby
  simp only [composite, visitedCells_eq _ _ _ _ _ _ hx hy, hrest, runCells, rangeTiles_nil,
    cellTask_nil]

/-- Every step of the catalog build works on a tile file. -/
theorem buildChannels_isTileStep (env : Env) (xDelta : Int) (tileFiles : List String) :
    ∀ e ∈ (buildChannels env xDelta tileFiles).1, e.isTileStep = true := by
  induction tileFiles with
  | nil => simp [buildChannels]
  | cons filename rest ih =>
    intro e he
    unfold buildChannels at he
    by_cases hm : MatchString imagePattern filename = true
    · by_cases ho : env.openTile filename = true
      · cases hd : env.decodeTile filename with
        | none =>
          simp only [hm, ho, hd, Bool.not_true, Bool.false_eq_true, if_false,
            List.mem_cons] at he
          rcases he with rfl | rfl | he
          · rfl
          · rfl
          · exact ih e he
        | some tileImage =>
          simp only [hm, ho, hd, Bool.not_true, Bool.false_eq_true, if_false,
            List.mem_cons] at he
          rcases he with rfl | rfl | rfl | rfl | he
          · rfl
          · rfl
          · rfl
          · rfl
          · exact ih e he
      · simp only [hm, ho, Bool.not_true, Bool.false_eq_true, if_false, Bool.not_eq_true,
          Bool.not_false, if_true, List.mem_cons] at he
        rcases he with rfl | he
        · rfl
        · exact ih e he
    · simp only [hm, Bool.not_eq_true, Bool.not_false, if_true] at he
      exact ih e he

/-- C4 (amended): in `main_channels.go`, whenever the catalog is empty after the
build phase (and the run got that far: directory listed, source opened and decoded
with well-formed bounds, both cell dimensions positive), no error is raised for
the empty catalog: the run creates the canvas, starts the first cell task, which
samples the cell at the origin of the source, and then ends in the run-time panic
of `tiles[""].scaled` on the missing key `""`; no cell is ever drawn and every
pixel of the canvas keeps its blank value. -/
theorem empty_catalog_run (env : Env) (tileFiles : List String) (origImage : Image)
    (hdir : env.readDir = some tileFiles) (hopen : env.openImage = true)
    (himg : env.origImage = some origImage) (hT : env.tilesCount ≠ 0)
    (hbx : origImage.minX ≤ origImage.maxX) (hby : origImage.minY ≤ origImage.maxY)
    (hx : 0 < Int.tdiv (origImage.maxX - origImage.minX) env.tilesCount)
    (hy : 0 < Int.tdiv (origImage.maxY - origImage.minY) env.tilesCount)
    (hempty : collectTiles (buildChannels env
      (Int.tdiv (origImage.maxX - origImage.minX) env.tilesCount) tileFiles).2 = []) :
    (mainChannels env).exit = Exit.panicNilTile "" ∧
    (mainChannels env).trace =
      [Event.readDir, Event.openImage, Event.decodeImage] ++
        (buildChannels env
          (Int.tdiv (origImage.maxX - origImage.minX) env.tilesCount) tileFiles).1 ++
        [Event.newCanvas, Event.sampleCell origImage.minX origImage.minY] ∧
    (∀ x y file, Event.drawCell x y file ∉ (mainChannels env).trace) ∧
    ∃ newImage, (mainChannels env).canvas = some newImage ∧ ∀ x y, newImage.pix x y = none := by
  have hmain : mainChannels env =
      { trace := [Event.readDir, Event.openImage, Event.decodeImage] ++
          (buildChannels env
            (Int.tdiv (origImage.maxX - origImage.minX) env.tilesCount) tileFiles).1 ++
          [Event.newCanvas, Event.sampleCell origImage.minX origImage.minY],
        exit := Exit.panicNilTile "", tiles := [],
        canvas := some
          (NewRGBA origImage.minX origImage.minY origImage.maxX origImage.maxY) } := by
    have hguard : ¬ (Int.tdiv (origImage.maxX - origImage.minX) env.tilesCount ≤ 0 ∨
        Int.tdiv (origImage.maxY - origImage.minY) env.tilesCount ≤ 0) := by omega
    simp only [mainChannels, hdir, hopen, himg, hT, hguard, hempty, if_false, Bool.not_true,
      Bool.false_eq_true]
    rw [composite_nil env origImage _ _ _ _ hx hy hbx hby]
  rw [hmain]
  refine ⟨rfl, rfl, ?_, _, rfl, fun _ _ => rfl⟩
  intro x y file hmem
  simp only [List.mem_append, List.mem_cons, List.mem_singleton, List.not_mem_nil,
    or_false, reduceCtorEq, false_or] at hmem
  have := buildChannels_isTileStep env _ tileFiles _ hmem
  simp [Event.isTileStep] at this

/-- C4 (witness): the run `noTilesEnv`, whose tile directory holds `notes.txt`
only. -/
theorem empty_catalog_run_witness :
    collectTiles (buildChannels noTilesEnv (Int.tdiv (2 - 0) 1) ["notes.txt"]).2 = [] ∧
    (mainChannels noTilesEnv).exit = Exit.panicNilTile "" ∧
    (∀ x y file, Event.drawCell x y file ∉ (mainChannels noTilesEnv).trace) :=
  have h := empty_catalog_run noTilesEnv ["notes.txt"]
    (solidImage 2 2 { r := 65535, g := 0, b := 0 }) rfl rfl rfl (by decide) (by decide)
    (by decide) (by decide) (by decide) rfl
  ⟨rfl, h.1, h.2.2.1⟩

/-! ## C5: the filename filter -/

namespace Regex

theorem Matches.none_inv {u : List Char} (h : Matches .none u) : False := by
  cases h

theorem Matches.eps_inv {u : List Char} (h : Matches .eps u) : u = [] := by
  cases h; rfl

theorem Matches.char_inv {c : Char} {u : List Char} (h : Matches (.char c) u) : u = [c] := by
  cases h; rfl

theorem Matches.anyNotNL_inv {u : List Char} (h : Matches .anyNotNL u) :
    ∃ c, c ≠ Char.ofNat 10 ∧ u = [c] := by
  cases h with
  | anyNotNL c hc => exact ⟨c, hc, rfl⟩

theorem Matches.seq_inv {a b : Regex} {u : List Char} (h : Matches (.seq a b) u) :
    ∃ s t, u = s ++ t ∧ Matches a s ∧ Matches b t := by
  cases h with
  | seq ha hb => exact ⟨_, _, rfl, ha, hb⟩

theorem Matches.alt_inv {a b : Regex} {u : List Char} (h : Matches (.alt a b) u) :
    Matches a u ∨ Matches b u := by
  cases h with
  | altL ha => exact Or.inl ha
  | altR hb => exact Or.inr hb

/-- A non-empty match of a starred expression starts with a non-empty match of
the expression. -/
theorem Matches.star_cons_inv {a : Regex} {c : Char} {s : List Char}
    (h : Matches (.star a) (c :: s)) :
    ∃ s₁ s₂, s = s₁ ++ s₂ ∧ Matches a (c :: s₁) ∧ Matches (.star a) s₂ := by
  generalize hr : Regex.star a = r at h
  generalize hu : c :: s = u at h
  induction h with
  | eps => cases hr
  | char _ => cases hr
  | anyNotNL _ _ => cases hr
  | seq _ _ _ _ => cases hr
  | altL _ _ => cases hr
  | altR _ _ => cases hr
  | starNil => cases hu
  | @starCons a' s' t' ha hs _ ih =>
    cases hr
    cases s' with
    | nil => exact ih rfl (by simpa using hu)
    | cons d s'' =>
      simp only [List.cons_append, List.cons.injEq] at hu
      obtain ⟨rfl, rfl⟩ := hu
      exact ⟨s'', t', rfl, ha, hs⟩

theorem nullable_iff (r : Regex) : r.nullable = true ↔ Matches r [] := by
  induction r with
  | none => exact ⟨fun h => by simp [nullable] at h, fun h => h.none_inv.elim⟩
  | eps => exact ⟨fun _ => Matches.eps, fun _ => rfl⟩
  | char c =>
    exact ⟨fun h => by simp [nullable] at h, fun h => by simpa using h.char_inv⟩
  | anyNotNL =>
    refine ⟨fun h => by simp [nullable] at h, fun h => ?_⟩
    obtain ⟨c, _, hc⟩ := h.anyNotNL_inv
    simp at hc
  | seq a b iha ihb =>
    simp only [nullable, Bool.and_eq_true, iha, ihb]
    constructor
    · rintro ⟨ha, hb⟩
      exact Matches.seq ha hb
    · intro h
      obtain ⟨s, t, hst, ha, hb⟩ := h.seq_inv
      have hs : s = [] := by
        cases s with
        | nil => rfl
        | cons _ _ => simp at hst
      have ht : t = [] := by
        cases t with
        | nil => rfl
        | cons _ _ => simp [hs] at hst
      subst hs ht
      exact ⟨ha, hb⟩
  | alt a b iha ihb =>
    simp only [nullable, Bool.or_eq_true, iha, ihb]
    exact ⟨fun h => h.elim Matches.altL Matches.altR, fun h => h.alt_inv⟩
  | star a _ => exact ⟨fun _ => Matches.starNil, fun _ => rfl⟩

theorem deriv_iff (r : Regex) : ∀ (c : Char) (s : List Char),
    Matches (r.deriv c) s ↔ Matches r (c :: s) := by
  induction r with
  | none => intro c s; exact ⟨fun h => h.none_inv.elim, fun h => h.none_inv.elim⟩
  | eps =>
    intro c s
    exact ⟨fun h => h.none_inv.elim, fun h => by simpa using h.eps_inv⟩
  | char d =>
    intro c s
    simp only [deriv]
    constructor
    · intro h
      by_cases hcd : c = d
      · rw [if_pos hcd] at h
        rw [h.eps_inv, hcd]
        exact Matches.char d
      · rw [if_neg hcd] at h
        exact h.none_inv.elim
    · intro h
      have := h.char_inv
      simp only [List.cons.injEq] at this
      rw [if_pos this.1, this.2]
      exact Matches.eps
  | anyNotNL =>
    intro c s
    simp only [deriv]
    constructor
    · intro h
      by_cases hc : c = Char.ofNat 10
      · rw [if_pos hc] at h
        exact h.none_inv.elim
      · rw [if_neg hc] at h
        rw [h.eps_inv]
        exact Matches.anyNotNL c hc
    · intro h
      obtain ⟨d, hd, hcs⟩ := h.anyNotNL_inv
      simp only [List.cons.injEq] at hcs
      rw [if_neg (by rw [hcs.1]; exact hd), hcs.2]
      exact Matches.eps
  | seq a b iha ihb =>
    intro c s
    have hcons : Matches (.seq a b) (c :: s) ↔
        (∃ s₁ s₂, s = s₁ ++ s₂ ∧ Matches a (c :: s₁) ∧ Matches b s₂) ∨
          (Matches a [] ∧ Matches b (c :: s)) := by
      constructor
      · intro h
        obtain ⟨u, v, huv, ha, hb⟩ := h.seq_inv
        cases u with
        | nil =>
          right
          simp only [List.nil_append] at huv
          exact ⟨ha, huv ▸ hb⟩
        | cons d u' =>
          left
          simp only [List.cons_append, List.cons.injEq] at huv
          obtain ⟨rfl, rfl⟩ := huv
          exact ⟨u', v, rfl, ha, hb⟩
      · rintro (⟨s₁, s₂, rfl, ha, hb⟩ | ⟨ha, hb⟩)
        · exact Matches.seq ha hb
        · exact Matches.seq ha hb
    have hleft : Matches (.seq (a.deriv c) b) s ↔
        ∃ s₁ s₂, s = s₁ ++ s₂ ∧ Matches a (c :: s₁) ∧ Matches b s₂ := by
      constructor
      · intro h
        obtain ⟨s₁, s₂, hs, ha, hb⟩ := h.seq_inv
        exact ⟨s₁, s₂, hs, (iha c s₁).mp ha, hb⟩
      · rintro ⟨s₁, s₂, rfl, ha, hb⟩
        exact Matches.seq ((iha c s₁).mpr ha) hb
    rw [hcons]
    simp only [deriv]
    by_cases hn : a.nullable = true
    · rw [if_pos hn]
      constructor
      · intro h
        rcases h.alt_inv with h | h
        · exact Or.inl (hleft.mp h)
        · exact Or.inr ⟨(nullable_iff a).mp hn, (ihb c s).mp h⟩
      · rintro (h | ⟨_, hb⟩)
        · exact Matches.altL (hleft.mpr h)
        · exact Matches.altR ((ihb c s).mpr hb)
    · rw [if_neg hn]
      constructor
      · intro h
        exact Or.inl (hleft.mp h)
      · rintro (h | ⟨ha, _⟩)
        · exact hleft.mpr h
        · exact absurd ((nullable_iff a).mpr ha) hn
  | alt a b iha ihb =>
    intro c s
    simp only [deriv]
    constructor
    · intro h
      rcases h.alt_inv with h | h
      · exact Matches.altL ((iha c s).mp h)
      · exact Matches.altR ((ihb c s).mp h)
    · intro h
      rcases h.alt_inv with h | h
      · exact Matches.altL ((iha c s).mpr h)
      · exact Matches.altR ((ihb c s).mpr h)
  | star a iha =>
    intro c s
    simp only [deriv]
    constructor
    · intro h
      obtain ⟨s₁, s₂, rfl, ha, hs⟩ := h.seq_inv
      exact Matches.starCons (s := c :: s₁) ((iha c s₁).mp ha) hs
    · intro h
      obtain ⟨s₁, s₂, rfl, ha, hs⟩ := h.star_cons_inv
      exact Matches.seq ((iha c s₁).mpr ha) hs

theorem fullMatch_iff (s : List Char) : ∀ r : Regex, r.fullMatch s = true ↔ Matches r s := by
  induction s with
  | nil => intro r; exact nullable_iff r
  | cons c s ih =>
    intro r
    have : r.fullMatch (c :: s) = (r.deriv c).fullMatch s := rfl
    rw [this, ih, deriv_iff]

end Regex

namespace Regex

theorem matches_lit_iff (w s : List Char) : Matches (lit w) s ↔ s = w := by
  induction w generalizing s with
  | nil =>
    exact ⟨fun h => h.eps_inv, fun h => by subst h; exact Matches.eps⟩
  | cons c w ih =>
    have hl : lit (c :: w) = .seq (.char c) (lit w) := rfl
    rw [hl]
    constructor
    · intro h
      obtain ⟨u, v, rfl, hu, hv⟩ := h.seq_inv
      rw [hu.char_inv, (ih v).mp hv]
      rfl
    · rintro rfl
      exact Matches.seq (s := [c]) (Matches.char c) ((ih w).mpr rfl)

theorem matches_star_anyNotNL_iff (s : List Char) :
    Matches (.star .anyNotNL) s ↔ ∀ c ∈ s, c ≠ Char.ofNat 10 := by
  induction s with
  | nil => exact ⟨fun _ c hc => by simp at hc, fun _ => Matches.starNil⟩
  | cons d s ih =>
    constructor
    · intro h
      obtain ⟨s₁, s₂, rfl, ha, hs⟩ := h.star_cons_inv
      obtain ⟨e, he, hde⟩ := ha.anyNotNL_inv
      simp only [List.cons.injEq] at hde
      obtain ⟨rfl, rfl⟩ := hde
      intro c hc
      rcases List.mem_cons.mp hc with rfl | hc
      · exact he
      · exact ih.mp (by simpa using hs) c hc
    · intro h
      exact Matches.starCons (s := [d]) (Matches.anyNotNL d (h d (List.mem_cons_self _ _)))
        (ih.mpr (fun c hc => h c (List.mem_cons_of_mem _ hc)))

end Regex

/-- The texts matched by `imagePattern`: a prefix without line feed, a dot, and
one of the four extensions. -/
theorem matches_imagePattern_iff (s : List Char) :
    Regex.Matches imagePattern s ↔
      ∃ p e, s = p ++ '.' :: e ∧ (∀ c ∈ p, c ≠ Char.ofNat 10) ∧
        (e = "jpg".toList ∨ e = "JPG".toList ∨ e = "jpeg".toList ∨ e = "JPEG".toList) := by
  unfold imagePattern
  constructor
  · intro h
    obtain ⟨p, t, rfl, hp, ht⟩ := h.seq_inv
    obtain ⟨d, e, rfl, hd, he⟩ := ht.seq_inv
    rw [hd.char_inv]
    refine ⟨p, e, rfl, (Regex.matches_star_anyNotNL_iff p).mp hp, ?_⟩
    rcases he.alt_inv with h1 | he
    · exact Or.inl ((Regex.matches_lit_iff _ _).mp h1)
    · rcases he.alt_inv with h2 | he
      · exact Or.inr (Or.inl ((Regex.matches_lit_iff _ _).mp h2))
      · rcases he.alt_inv with h3 | h4
        · exact Or.inr (Or.inr (Or.inl ((Regex.matches_lit_iff _ _).mp h3)))
        · exact Or.inr (Or.inr (Or.inr ((Regex.matches_lit_iff _ _).mp h4)))
  · rintro ⟨p, e, rfl, hp, he⟩
    refine Regex.Matches.seq ((Regex.matches_star_anyNotNL_iff p).mpr hp)
      (Regex.Matches.seq (s := ['.']) (Regex.Matches.char '.') ?_)
    rcases he with h | h | h | h
    · exact Regex.Matches.altL ((Regex.matches_lit_iff _ _).mpr h)
    · exact Regex.Matches.altR (Regex.Matches.altL ((Regex.matches_lit_iff _ _).mpr h))
    · exact Regex.Matches.altR (Regex.Matches.altR
        (Regex.Matches.altL ((Regex.matches_lit_iff _ _).mpr h)))
    · exact Regex.Matches.altR (Regex.Matches.altR
        (Regex.Matches.altR ((Regex.matches_lit_iff _ _).mpr h)))

/-- What the filter accepts: the names without a line feed that end with one of
the four suffixes. -/
theorem MatchString_imagePattern_iff (filename : String) :
    MatchString imagePattern filename = true ↔
      Char.ofNat 10 ∉ filename.toList ∧ hasImageSuffix filename := by
  unfold MatchString
  rw [Regex.fullMatch_iff, matches_imagePattern_iff]
  constructor
  · rintro ⟨p, e, hs, hp, he⟩
    have hnl : Char.ofNat 10 ∉ '.' :: e := by
      rcases he with h | h | h | h <;> subst h <;> decide
    refine ⟨?_, ?_⟩
    · rw [hs]
      intro hmem
      rcases List.mem_append.mp hmem with h | h
      · exact hp _ h rfl
      · exact hnl h
    · unfold hasImageSuffix imageSuffixes
      rcases he with h | h | h | h <;> subst h
      · exact ⟨".jpg", by simp, ⟨p, hs.symm⟩⟩
      · exact ⟨".JPG", by simp, ⟨p, hs.symm⟩⟩
      · exact ⟨".jpeg", by simp, ⟨p, hs.symm⟩⟩
      · exact ⟨".JPEG", by simp, ⟨p, hs.symm⟩⟩
  · rintro ⟨hnl, suffix, hmem, p, hp⟩
    have hpnl : ∀ c ∈ p, c ≠ Char.ofNat 10 := by
      intro c hc hcnl
      apply hnl
      rw [← hp, ← hcnl]
      exact List.mem_append_left _ hc
    unfold imageSuffixes at hmem
    simp only [List.mem_cons, List.mem_singleton, List.not_mem_nil, or_false] at hmem
    rcases hmem with h | h | h | h <;> subst h
    · exact ⟨p, "jpg".toList, hp.symm, hpnl, Or.inl rfl⟩
    · exact ⟨p, "JPG".toList, hp.symm, hpnl, Or.inr (Or.inl rfl)⟩
    · exact ⟨p, "jpeg".toList, hp.symm, hpnl, Or.inr (Or.inr (Or.inl rfl))⟩
    · exact ⟨p, "JPEG".toList, hp.symm, hpnl, Or.inr (Or.inr (Or.inr rfl))⟩

/-- C5, as stated, fails: the name made of `a`, a line feed and `.jpg` ends with the
suffix `.jpg`, and the filter rejects it, because `.` in `^.*` does not match a
line feed. -/
theorem filter_rejects_line_feed_name :
    hasImageSuffix lineFeedName ∧ MatchString imagePattern lineFeedName = false :=
  ⟨⟨".jpg", by simp [imageSuffixes], ⟨['a', Char.ofNat 10], rfl⟩⟩, by decide⟩

theorem Catalog.mem_keys_set (tiles : Catalog) (filename : String) (tile : TileImage)
    (k : String) :
    k ∈ (Catalog.set tiles filename tile).keys ↔ k = filename ∨ k ∈ tiles.keys := by
  induction tiles with
  | nil => simp [Catalog.set, Catalog.keys]
  | cons kv rest ih =>
    obtain ⟨k', v⟩ := kv
    unfold Catalog.set
    by_cases h : k' = filename
    · rw [if_pos h]
      subst h
      simp [Catalog.keys]
    · rw [if_neg h]
      simp only [Catalog.keys, List.map_cons, List.mem_cons] at ih ⊢
      rw [ih]
      tauto

theorem collectTiles_keys_aux (messages : List (String × TileImage)) :
    ∀ (tiles : Catalog) (k : String),
      k ∈ (messages.foldl (fun tiles m => Catalog.set tiles m.1 m.2) tiles).keys ↔
        k ∈ messages.map Prod.fst ∨ k ∈ tiles.keys := by
  induction messages with
  | nil => intro tiles k; simp
  | cons m rest ih =>
    intro tiles k
    simp only [List.foldl_cons, List.map_cons, List.mem_cons]
    rw [ih, Catalog.mem_keys_set]
    tauto

/-- The keys of the map built from the channel are the file names of the
messages. -/
theorem collectTiles_keys (messages : List (String × TileImage)) (k : String) :
    k ∈ (collectTiles messages).keys ↔ k ∈ messages.map Prod.fst := by
  unfold collectTiles
  rw [collectTiles_keys_aux]
  simp [Catalog.keys]

/-- A message is sent only for a listed file that passes the filter, opens and
decodes. -/
theorem buildChannels_messages (env : Env) (xDelta : Int) (tileFiles : List String)
    (k : String) :
    k ∈ (buildChannels env xDelta tileFiles).2.map Prod.fst ↔
      k ∈ tileFiles ∧ MatchString imagePattern k = true ∧ env.openTile k = true ∧
        (env.decodeTile k).isSome = true := by
  induction tileFiles with
  | nil => simp [buildChannels]
  | cons filename rest ih =>
    unfold buildChannels
    by_cases hm : MatchString imagePattern filename = true
    · by_cases ho : env.openTile filename = true
      · cases hd : env.decodeTile filename with
        | none =>
          simp only [hm, ho, hd, Bool.not_true, Bool.false_eq_true, if_false, List.mem_cons]
          rw [ih]
          constructor
          · rintro ⟨h1, h2⟩
            exact ⟨Or.inr h1, h2⟩
          · rintro ⟨h1 | h1, h2, h3, h4⟩
            · subst h1
              simp [hd] at h4
            · exact ⟨h1, h2, h3, h4⟩
        | some tileImage =>
          simp only [hm, ho, hd, Bool.not_true, Bool.false_eq_true, if_false, List.mem_cons,
            List.map_cons]
          rw [ih]
          constructor
          · rintro (h | ⟨h1, h2⟩)
            · subst h
              exact ⟨Or.inl rfl, hm, ho, by simp [hd]⟩
            · exact ⟨Or.inr h1, h2⟩
          · rintro ⟨h1 | h1, h2⟩
            · exact Or.inl h1
            · exact Or.inr ⟨h1, h2⟩
      · simp only [hm, ho, Bool.not_true, Bool.false_eq_true, if_false, Bool.not_eq_true,
          Bool.not_false, if_true, List.mem_cons]
        rw [ih]
        constructor
        · rintro ⟨h1, h2⟩
          exact ⟨Or.inr h1, h2⟩
        · rintro ⟨h1 | h1, h2, h3, h4⟩
          · subst h1
            exact absurd h3 ho
          · exact ⟨h1, h2, h3, h4⟩
    · simp only [hm, Bool.not_eq_true, Bool.not_false, if_true, List.mem_cons]
      rw [ih]
      constructor
      · rintro ⟨h1, h2⟩
        exact ⟨Or.inr h1, h2⟩
      · rintro ⟨h1 | h1, h2, h3, h4⟩
        · subst h1
          exact absurd h2 hm
        · exact ⟨h1, h2, h3, h4⟩

/-- The keys of the catalog of `main_channels.go`. -/
theorem channels_catalog_keys (env : Env) (xDelta : Int) (tileFiles : List String)
    (k : String) :
    k ∈ (collectTiles (buildChannels env xDelta tileFiles).2).keys ↔
      k ∈ tileFiles ∧ MatchString imagePattern k = true ∧ env.openTile k = true ∧
        (env.decodeTile k).isSome = true := by
  rw [collectTiles_keys, buildChannels_messages]

/-- A key of the catalog of `main_mutex.go` was in the map before the build or is
a listed file that passes the filter, opens and decodes. -/
theorem mutex_catalog_keys (env : Env) (xDelta : Int) (tileFiles : List String) :
    ∀ (tiles : Catalog) (k : String),
      k ∈ (buildMutex env xDelta tileFiles tiles).2.2.keys →
        k ∈ tiles.keys ∨
          (k ∈ tileFiles ∧ MatchString imagePattern k = true ∧ env.openTile k = true ∧
            (env.decodeTile k).isSome = true) := by
  induction tileFiles with
  | nil => intro tiles k h; exact Or.inl (by simpa [buildMutex] using h)
  | cons filename rest ih =>
    intro tiles k h
    unfold buildMutex at h
    unfold getTileColourMutex at h
    by_cases hm : MatchString imagePattern filename = true
    · by_cases ho : env.openTile filename = true
      · cases hd : env.decodeTile filename with
        | none =>
          simp only [hm, ho, hd, Bool.not_true, Bool.false_eq_true, if_false] at h
          rcases ih tiles k h with h' | ⟨h1, h2⟩
          · exact Or.inl h'
          · exact Or.inr ⟨List.mem_cons_of_mem _ h1, h2⟩
        | some tileImage =>
          simp only [hm, ho, hd, Bool.not_true, Bool.false_eq_true, if_false] at h
          rcases ih _ k h with h' | ⟨h1, h2⟩
          · rcases (Catalog.mem_keys_set _ _ _ _).mp h' with hk | hk
            · subst hk
              exact Or.inr ⟨List.mem_cons_self _ _, hm, ho, by simp [hd]⟩
            · exact Or.inl hk
          · exact Or.inr ⟨List.mem_cons_of_mem _ h1, h2⟩
      · simp only [hm, ho, Bool.not_true, Bool.false_eq_true, if_false, Bool.not_eq_true,
          Bool.not_false, if_true] at h
        exact Or.inl h
    · simp only [hm, Bool.not_eq_true, Bool.not_false, if_true] at h
      rcases ih tiles k h with h' | ⟨h1, h2⟩
      · exact Or.inl h'
      · exact Or.inr ⟨List.mem_cons_of_mem _ h1, h2⟩

/-- C5 (amended): the filter `imagePattern` accepts a file name if and only if the
name holds no line feed and ends, case-sensitively, with one of the suffixes
`.jpg`, `.JPG`, `.jpeg`, `.JPEG`; in particular `notes.txt` is rejected, and it is
never a key of the catalog, in `main_channels.go` and in `main_mutex.go`. -/
theorem imagePattern_accepts (filename : String) :
    (MatchString imagePattern filename = true ↔
      Char.ofNat 10 ∉ filename.toList ∧ hasImageSuffix filename) ∧
    MatchString imagePattern "notes.txt" = false ∧
    (∀ (env : Env) (xDelta : Int) (tileFiles : List String),
      "notes.txt" ∉ (collectTiles (buildChannels env xDelta tileFiles).2).keys ∧
      "notes.txt" ∉ (buildMutex env xDelta tileFiles []).2.2.keys) := by
  refine ⟨MatchString_imagePattern_iff filename, by decide, ?_⟩
  intro env xDelta tileFiles
  have hno : ¬ MatchString imagePattern "notes.txt" = true := by decide
  constructor
  · intro h
    exact hno ((channels_catalog_keys env xDelta tileFiles _).mp h).2.1
  · intro h
    rcases mutex_catalog_keys env xDelta tileFiles [] _ h with h' | h'
    · simp [Catalog.keys] at h'
    · exact hno h'.2.1

/-! ## C10: a tile file that cannot be opened -/

/-- C10, as stated, fails for `main_mutex.go`: `a.jpg` passes the filter and cannot
be opened, and the run ends there with `log.Fatal`; nothing is stored in the
catalog and the remaining candidate `b.jpg` is never looked at. -/
theorem open_failure_aborts_mutex :
    MatchString imagePattern "a.jpg" = true ∧ lockedEnv.openTile "a.jpg" = false ∧
    (mainMutex lockedEnv).exit = Exit.fatalOpenTile "a.jpg" ∧
    (mainMutex lockedEnv).tiles.keys = [] ∧
    (mainMutex lockedEnv).trace =
      [Event.readDir, Event.openImage, Event.decodeImage, Event.openTile "a.jpg"] :=
  ⟨by decide, by decide, by decide, by decide, by decide⟩

/-- A run of the cell tasks ends normally or in the panic of a missing tile. -/
theorem runCells_exit (env : Env) (tiles : Catalog) (origImage : Image)
    (sp : TileImage → Int × Int) (xDelta yDelta : Int) (cells : List (Int × Int)) :
    ∀ newImage : Canvas,
      (runCells env tiles origImage sp xDelta yDelta cells newImage).2.1 = Exit.ok ∨
      ∃ file, (runCells env tiles origImage sp xDelta yDelta cells newImage).2.1 =
        Exit.panicNilTile file := by
  induction cells with
  | nil => intro newImage; exact Or.inl rfl
  | cons c rest ih =>
    intro newImage
    obtain ⟨x, y⟩ := c
    unfold runCells
    rcases h : cellTask (env.rangeTiles x y tiles).1 origImage sp xDelta yDelta newImage x y
      with ⟨file, _ | drawn⟩
    · exact Or.inr ⟨file, rfl⟩
    · exact ih drawn

/-- The shape of a run from the creation of the canvas on. -/
theorem composite_shape (env : Env) (tiles : Catalog) (origImage : Image)
    (sp : TileImage → Int × Int) (xDelta yDelta : Int) (before : List Event) :
    ∃ (after : List Event) (newImage : Canvas) (e : Exit),
      composite env tiles origImage sp xDelta yDelta before =
        { trace := before ++ Event.newCanvas :: after, exit := e, tiles := tiles,
          canvas := some newImage } ∧
      (e = Exit.ok ∨ e = Exit.fatalCreateMosaic ∨ e = Exit.hang ∨
        ∃ file, e = Exit.panicNilTile file) := by
  simp only [composite]
  cases hv : visitedCells origImage.minX origImage.minY origImage.maxX origImage.maxY
      xDelta yDelta with
  | none => exact ⟨[], _, Exit.hang, rfl, Or.inr (Or.inr (Or.inl rfl))⟩
  | some cells =>
    simp only
    have hex := runCells_exit env tiles origImage sp xDelta yDelta cells
      (NewRGBA origImage.minX origImage.minY origImage.maxX origImage.maxY)
    generalize runCells env tiles origImage sp xDelta yDelta cells
      (NewRGBA origImage.minX origImage.minY origImage.maxX origImage.maxY) = r at hex
    obtain ⟨tr, e, cv⟩ := r
    simp only at hex ⊢
    rcases hex with h | ⟨file, h⟩
    · subst h
      by_cases hc : env.createMosaic = true
      · simp only [hc, if_true]
        exact ⟨tr ++ [Event.createMosaic, Event.encodeMosaic], cv, Exit.ok, by simp,
          Or.inl rfl⟩
      · simp only [hc, if_false, Bool.false_eq_true]
        exact ⟨tr ++ [Event.createMosaic], cv, Exit.fatalCreateMosaic, by simp,
          Or.inr (Or.inl rfl)⟩
    · subst h
      exact ⟨_, _, Exit.panicNilTile file, rfl, Or.inr (Or.inr (Or.inr ⟨file, rfl⟩))⟩

/-- The open attempt on a listed file that passes the filter is a step of the
build of `main_channels.go`. -/
theorem buildChannels_openTile (env : Env) (xDelta : Int) (tileFiles : List String)
    (filename : String) (hmem : filename ∈ tileFiles)
    (hmatch : MatchString imagePattern filename = true) :
    Event.openTile filename ∈ (buildChannels env xDelta tileFiles).1 := by
  induction tileFiles with
  | nil => simp at hmem
  | cons f rest ih =>
    unfold buildChannels
    rcases List.mem_cons.mp hmem with rfl | hrest
    · by_cases ho : env.openTile filename = true
      · cases hd : env.decodeTile filename <;> simp [hmatch, ho, hd]
      · simp [hmatch, ho]
    · have := ih hrest
      by_cases hm : MatchString imagePattern f = true
      · by_cases ho : env.openTile f = true
        · cases hd : env.decodeTile f <;> simp [hm, ho, hd, this]
        · simp [hm, ho, this]
      · simp [hm, this]

/-- A listed file that passes the filter and cannot be opened ends the build of
`main_mutex.go` with `log.Fatal`. -/
theorem buildMutex_fatal (env : Env) (xDelta : Int) (tileFiles : List String)
    (filename : String) (hmem : filename ∈ tileFiles)
    (hmatch : MatchString imagePattern filename = true)
    (hfail : env.openTile filename = false) :
    ∀ tiles : Catalog, ∃ g, g ∈ tileFiles ∧ MatchString imagePattern g = true ∧
      env.openTile g = false ∧ (buildMutex env xDelta tileFiles tiles).2.1 = some g := by
  induction tileFiles with
  | nil => simp at hmem
  | cons f rest ih =>
    intro tiles
    unfold buildMutex getTileColourMutex
    by_cases hm : MatchString imagePattern f = true
    · by_cases ho : env.openTile f = true
      · have hne : filename ≠ f := by
          rintro rfl
          rw [hfail] at ho
          exact Bool.false_ne_true ho
        have hrest : filename ∈ rest := by
          rcases List.mem_cons.mp hmem with h | h
          · exact absurd h hne
          · exact h
        cases hd : env.decodeTile f with
        | none =>
          simp only [hm, ho, hd, Bool.not_true, Bool.false_eq_true, if_false]
          obtain ⟨g, hg, h⟩ := ih hrest tiles
          exact ⟨g, List.mem_cons_of_mem _ hg, h⟩
        | some tileImage =>
          simp only [hm, ho, hd, Bool.not_true, Bool.false_eq_true, if_false]
          obtain ⟨g, hg, h⟩ := ih hrest _
          exact ⟨g, List.mem_cons_of_mem _ hg, h⟩
      · simp only [hm, ho, Bool.not_true, Bool.false_eq_true, if_false, Bool.not_eq_true,
          Bool.not_false, if_true]
        exact ⟨f, List.mem_cons_self _ _, hm, by simpa using ho, rfl⟩
    · have hne : filename ≠ f := by
        rintro rfl
        exact hm hmatch
      have hrest : filename ∈ rest := by
        rcases List.mem_cons.mp hmem with h | h
        · exact absurd h hne
        · exact h
      simp only [hm, Bool.not_eq_true, Bool.not_false, if_true]
      obtain ⟨g, hg, h⟩ := ih hrest tiles
      exact ⟨g, List.mem_cons_of_mem _ hg, h⟩

/-- Every step of the catalog build of `main_mutex.go` works on a tile file. -/
theorem buildMutex_isTileStep (env : Env) (xDelta : Int) (tileFiles : List String) :
    ∀ (tiles : Catalog), ∀ e ∈ (buildMutex env xDelta tileFiles tiles).1,
      e.isTileStep = true := by
  induction tileFiles with
  | nil => intro tiles e he; simp [buildMutex] at he
  | cons f rest ih =>
    intro tiles e he
    unfold buildMutex getTileColourMutex at he
    by_cases hm : MatchString imagePattern f = true
    · by_cases ho : env.openTile f = true
      · cases hd : env.decodeTile f with
        | none =>
          simp only [hm, ho, hd, Bool.not_true, Bool.false_eq_true, if_false,
            List.cons_append, List.nil_append, List.mem_cons] at he
          rcases he with rfl | rfl | he
          · rfl
          · rfl
          · exact ih _ e he
        | some tileImage =>
          simp only [hm, ho, hd, Bool.not_true, Bool.false_eq_true, if_false,
            List.cons_append, List.nil_append, List.mem_cons] at he
          rcases he with rfl | rfl | rfl | rfl | he
          · rfl
          · rfl
          · rfl
          · rfl
          · exact ih _ e he
      · simp only [hm, ho, Bool.not_true, Bool.false_eq_true, if_false, Bool.not_eq_true,
          Bool.not_false, if_true, List.mem_singleton] at he
        subst he
        rfl
    · simp only [hm, Bool.not_eq_true, Bool.not_false, if_true, List.nil_append] at he
      exact ih _ e he

/-- C10 (amended): for every candidate file name that passes the extension filter
but whose file cannot be opened (in a run that reaches the catalog build), in
`main_channels.go` the open is attempted, the candidate is left out of the
catalog, the other candidates enter the catalog exactly when they pass the filter,
open and decode, and the run goes on to create the canvas and never ends with a
tile-open error; in `main_mutex.go` a candidate that cannot be opened ends the
process with `log.Fatal` before the canvas is created. -/
theorem open_failure_handling (env : Env) (tileFiles : List String) (origImage : Image)
    (filename : String)
    (hdir : env.readDir = some tileFiles) (hopen : env.openImage = true)
    (himg : env.origImage = some origImage) (hT : env.tilesCount ≠ 0)
    (hx : 0 < Int.tdiv (origImage.maxX - origImage.minX) env.tilesCount)
    (hy : 0 < Int.tdiv (origImage.maxY - origImage.minY) env.tilesCount)
    (hmem : filename ∈ tileFiles) (hmatch : MatchString imagePattern filename = true)
    (hfail : env.openTile filename = false) :
    (filename ∉ (mainChannels env).tiles.keys ∧
      (∀ k, k ∈ (mainChannels env).tiles.keys ↔
        k ∈ tileFiles ∧ MatchString imagePattern k = true ∧ env.openTile k = true ∧
          (env.decodeTile k).isSome = true) ∧
      Event.openTile filename ∈ (mainChannels env).trace ∧
      Event.newCanvas ∈ (mainChannels env).trace ∧
      ∀ g, (mainChannels env).exit ≠ Exit.fatalOpenTile g) ∧
    (∃ g, g ∈ tileFiles ∧ MatchString imagePattern g = true ∧ env.openTile g = false ∧
      (mainMutex env).exit = Exit.fatalOpenTile g ∧
      Event.newCanvas ∉ (mainMutex env).trace ∧ (mainMutex env).canvas = none) := by
  have hguard : ¬ (Int.tdiv (origImage.maxX - origImage.minX) env.tilesCount ≤ 0 ∨
      Int.tdiv (origImage.maxY - origImage.minY) env.tilesCount ≤ 0) := by omega
  constructor
  · have hmain : mainChannels env =
        composite env
          (collectTiles (buildChannels env
            (Int.tdiv (origImage.maxX - origImage.minX) env.tilesCount) tileFiles).2)
          origImage (fun _ => (origImage.minX, origImage.minY))
          (Int.tdiv (origImage.maxX - origImage.minX) env.tilesCount)
          (Int.tdiv (origImage.maxY - origImage.minY) env.tilesCount)
          ([Event.readDir, Event.openImage, Event.decodeImage] ++
            (buildChannels env
              (Int.tdiv (origImage.maxX - origImage.minX) env.tilesCount) tileFiles).1) := by
      simp only [mainChannels, hdir, hopen, himg, hT, hguard, if_false, Bool.not_true,
        Bool.false_eq_true]
    obtain ⟨after, newImage, e, hrun, he⟩ := composite_shape env
      (collectTiles (buildChannels env
        (Int.tdiv (origImage.maxX - origImage.minX) env.tilesCount) tileFiles).2)
      origImage (fun _ => (origImage.minX, origImage.minY))
      (Int.tdiv (origImage.maxX - origImage.minX) env.tilesCount)
      (Int.tdiv (origImage.maxY - origImage.minY) env.tilesCount)
      ([Event.readDir, Event.openImage, Event.decodeImage] ++
        (buildChannels env
          (Int.tdiv (origImage.maxX - origImage.minX) env.tilesCount) tileFiles).1)
    rw [hmain, hrun]
    refine ⟨?_, ?_, ?_, ?_, ?_⟩
    · intro h
      have := ((channels_catalog_keys env _ tileFiles filename).mp h).2.2.1
      rw [hfail] at this
      exact Bool.false_ne_true this
    · intro k
      exact channels_catalog_keys env _ tileFiles k
    · have := buildChannels_openTile env
        (Int.tdiv (origImage.maxX - origImage.minX) env.tilesCount) tileFiles filename hmem hmatch
      simp [this]
    · simp
    · intro g hg
      simp only at hg
      rcases he with h | h | h | ⟨file, h⟩ <;> rw [h] at hg <;> cases hg
  · obtain ⟨g, hg, hgm, hgo, hb⟩ := buildMutex_fatal env
      (Int.tdiv (origImage.maxX - origImage.minX) env.tilesCount) tileFiles filename hmem hmatch
      hfail []
    have hmain : mainMutex env =
        { trace := [Event.readDir, Event.openImage, Event.decodeImage] ++
            (buildMutex env
              (Int.tdiv (origImage.maxX - origImage.minX) env.tilesCount) tileFiles []).1,
          exit := Exit.fatalOpenTile g,
          tiles := (buildMutex env
              (Int.tdiv (origImage.maxX - origImage.minX) env.tilesCount) tileFiles []).2.2,
          canvas := none } := by
      simp only [mainMutex, hdir, hopen, himg, hT, hguard, if_false, Bool.not_true,
        Bool.false_eq_true, hb]
    refine ⟨g, hg, hgm, hgo, by rw [hmain], ?_, by rw [hmain]⟩
    rw [hmain]
    intro hmem'
    simp only [List.mem_append, List.mem_cons, List.not_mem_nil, or_false, reduceCtorEq,
      false_or] at hmem'
    have := buildMutex_isTileStep env _ tileFiles [] _ hmem'
    simp [Event.isTileStep] at this

/-- C10 (witness): the run `lockedEnv`, in which `a.jpg` cannot be opened. -/
theorem open_failure_handling_witness :
    ("a.jpg" ∈ ["a.jpg", "b.jpg"] ∧ MatchString imagePattern "a.jpg" = true ∧
      lockedEnv.openTile "a.jpg" = false) ∧
    ("a.jpg" ∉ (mainChannels lockedEnv).tiles.keys ∧
      Event.newCanvas ∈ (mainChannels lockedEnv).trace) ∧
    (∃ g, g ∈ ["a.jpg", "b.jpg"] ∧ MatchString imagePattern g = true ∧
      lockedEnv.openTile g = false ∧
      (mainMutex lockedEnv).exit = Exit.fatalOpenTile g ∧
      Event.newCanvas ∉ (mainMutex lockedEnv).trace ∧ (mainMutex lockedEnv).canvas = none) :=
  have h := open_failure_handling lockedEnv ["a.jpg", "b.jpg"]
    (solidImage 2 2 { r := 65535, g := 0, b := 0 }) "a.jpg" rfl rfl rfl (by decide)
    (by decide) (by decide) (by decide) (by decide) (by decide)
  ⟨⟨by decide, by decide, by decide⟩, ⟨h.1.1, h.1.2.2.2.1⟩, h.2⟩

/-! ## C9: the red source and the red and blue tiles -/

/-- C9: on the 100 x 100 solid red source with `T = 10` and the catalog built from
a solid red and a solid blue tile (averages `(65535, 0, 0)` and `(0, 0, 65535)`),
the compositing loop starts a cell task at `(100, 0)`; every pixel it samples lies
outside the source, so its query colour is `(0, 0, 0)`, at the same distance from
both tiles, and the strict `<` keeps the tile visited first: when `range` visits
the blue tile first, the task selects `blue.jpg`, and the run of `main_channels.go`
performs the step `drawCell 100 0 "blue.jpg"`. -/
theorem edge_cell_selects_blue :
    (visitedCells 0 0 100 100 10 10).map (fun cells => decide ((100, 0) ∈ cells)) = some true ∧
    redBlueTiles.keys = ["red.jpg", "blue.jpg"] ∧
    redBlueTiles.map (fun ft => ft.2.averageRGB) =
      [some { r := 65535, g := 0, b := 0 }, some { r := 0, g := 0, b := 65535 }] ∧
    getImageColour (solidImage 100 100 red) 100 0 (100 + 10) (0 + 10) =
      some { r := 0, g := 0, b := 0 } ∧
    (cellTask (redBlueEnv.rangeTiles 100 0 redBlueTiles).1 (solidImage 100 100 red)
      (fun _ => (0, 0)) 10 10 (NewRGBA 0 0 100 100) 100 0).1 = "blue.jpg" ∧
    Event.drawCell 100 0 "blue.jpg" ∈ (mainChannels redBlueEnv).trace :=
  ⟨by decide, by decide, by decide!, by decide!, by decide!, by decide!⟩

/-- The cell tasks at `(0, 0)` and `(90, 90)`, which lie on the canvas, select the
red tile in either order. -/
theorem inner_cells_select_red :
    (cellTask (redBlueEnv.rangeTiles 0 0 redBlueTiles).1 (solidImage 100 100 red)
      (fun _ => (0, 0)) 10 10 (NewRGBA 0 0 100 100) 0 0).1 = "red.jpg" ∧
    (cellTask redBlueTiles (solidImage 100 100 red)
      (fun _ => (0, 0)) 10 10 (NewRGBA 0 0 100 100) 0 0).1 = "red.jpg" ∧
    (cellTask (redBlueEnv.rangeTiles 90 90 redBlueTiles).1 (solidImage 100 100 red)
      (fun _ => (0, 0)) 10 10 (NewRGBA 0 0 100 100) 90 90).1 = "red.jpg" ∧
    (cellTask redBlueTiles (solidImage 100 100 red)
      (fun _ => (0, 0)) 10 10 (NewRGBA 0 0 100 100) 90 90).1 = "red.jpg" :=
  ⟨by decide!, by decide!, by decide!, by decide!⟩

/-- The same run on bitmaps whose `At` returns `(0, 34678, 0)` outside the bounds
also draws the blue tile for the cell task at `(100, 0)`. -/
theorem edge_cell_selects_blue_ycbcr :
    Event.drawCell 100 0 "blue.jpg" ∈ (mainChannels redBlueYCbCrEnv).trace := by
  decide!

/-! ## C6: the canvas after compositing -/

/-- The accumulators after a loop that adds one colour per value of the loop
variable. -/
theorem foldl_add_colours (f : Int → RGB) (vs : List Int) :
    ∀ acc : RGB,
      vs.foldl (fun acc v =>
        ({ r := acc.r + (f v).r, g := acc.g + (f v).g, b := acc.b + (f v).b } : RGB)) acc =
        { r := acc.r + (vs.map (fun v => (f v).r)).sum,
          g := acc.g + (vs.map (fun v => (f v).g)).sum,
          b := acc.b + (vs.map (fun v => (f v).b)).sum } := by
  induction vs with
  | nil => intro acc; simp
  | cons v rest ih =>
    intro acc
    simp only [List.foldl_cons, ih, List.map_cons, List.sum_cons, Nat.add_assoc]

/-- The accumulators of `getImageColour` are the sums of the channels over the
rows and columns of the two loops. -/
theorem sumRegion_eq (image : Image) (xMin yMin xMax yMax : Int) :
    sumRegion image xMin yMin xMax yMax =
      { r := ((rangeIncl yMin yMax).map (fun y =>
              ((rangeIncl xMin xMax).map (fun x => (image.At x y).r)).sum)).sum,
        g := ((rangeIncl yMin yMax).map (fun y =>
              ((rangeIncl xMin xMax).map (fun x => (image.At x y).g)).sum)).sum,
        b := ((rangeIncl yMin yMax).map (fun y =>
              ((rangeIncl xMin xMax).map (fun x => (image.At x y).b)).sum)).sum } := by
  unfold sumRegion
  have inner : ∀ (acc : RGB) (y : Int),
      (rangeIncl xMin xMax).foldl
        (fun acc x =>
          let c := image.At x y
          ({ r := acc.r + c.r, g := acc.g + c.g, b := acc.b + c.b } : RGB)) acc =
        { r := acc.r + ((rangeIncl xMin xMax).map (fun x => (image.At x y).r)).sum,
          g := acc.g + ((rangeIncl xMin xMax).map (fun x => (image.At x y).g)).sum,
          b := acc.b + ((rangeIncl xMin xMax).map (fun x => (image.At x y).b)).sum } :=
    fun acc y => foldl_add_colours (fun x => image.At x y) _ acc
  simp only [inner]
  have outer := foldl_add_colours
    (fun y =>
      ({ r := ((rangeIncl xMin xMax).map (fun x => (image.At x y).r)).sum,
         g := ((rangeIncl xMin xMax).map (fun x => (image.At x y).g)).sum,
         b := ((rangeIncl xMin xMax).map (fun x => (image.At x y).b)).sum } : RGB))
    (rangeIncl yMin yMax) { r := 0, g := 0, b := 0 }
  simpa using outer

theorem rangeIncl_succ (lo hi : Int) (h : lo ≤ hi) :
    rangeIncl lo hi = rangeIncl lo (hi - 1) ++ [hi] := by
  unfold rangeIncl
  have e : (hi + 1 - lo).toNat = (hi - 1 + 1 - lo).toNat + 1 := by omega
  rw [e, List.range_succ, List.map_append]
  simp only [List.map_cons, List.map_nil, List.append_cancel_left_eq, List.cons.injEq,
    and_true]
  omega

theorem rangeIncl_length (lo hi : Int) : (rangeIncl lo hi).length = (hi + 1 - lo).toNat := by
  simp [rangeIncl]

theorem mem_rangeIncl (lo hi v : Int) : v ∈ rangeIncl lo hi ↔ lo ≤ v ∧ v ≤ hi := by
  unfold rangeIncl
  simp only [List.mem_map, List.mem_range]
  constructor
  · rintro ⟨k, hk, rfl⟩
    omega
  · intro h
    exact ⟨(v - lo).toNat, by omega, by omega⟩

/-- The sum of a channel over the pixels of a bitmap, row by row. -/
theorem sum_pixels (bitmap : Image) (f : Int → Int → Nat) :
    (bitmap.pixels.map (fun p => f p.1 p.2)).sum =
      ((rangeIncl bitmap.minY (bitmap.maxY - 1)).map (fun y =>
        ((rangeIncl bitmap.minX (bitmap.maxX - 1)).map (fun x => f x y)).sum)).sum := by
  unfold Image.pixels
  generalize rangeIncl bitmap.minY (bitmap.maxY - 1) = ys
  induction ys with
  | nil => simp
  | cons y rest ih =>
    simp only [List.flatMap_cons, List.map_append, List.sum_append, List.map_cons,
      List.sum_cons, ih, List.map_map, Function.comp_def]

theorem length_pixels (bitmap : Image) :
    bitmap.pixels.length =
      (bitmap.maxY - bitmap.minY).toNat * (bitmap.maxX - bitmap.minX).toNat := by
  unfold Image.pixels
  simp only [List.length_flatMap, List.length_map, rangeIncl_length, Function.comp_def,
    List.map_const', List.sum_replicate, smul_eq_mul]
  congr 1 <;> congr 1 <;> omega

/-- The sum that the two loops of `getImageColour` form over the bounds of a
bitmap, both bounds included, is the sum over the pixels of the bitmap when `At`
is the zero colour outside the bounds. -/
theorem sum_incl_eq_sum_pixels (bitmap : Image) (f : Int → Int → Nat)
    (hw : bitmap.minX < bitmap.maxX) (hh : bitmap.minY < bitmap.maxY)
    (hzero : ∀ x y, bitmap.Bounds.Has x y = false → f x y = 0) :
    ((rangeIncl bitmap.minY bitmap.maxY).map (fun y =>
        ((rangeIncl bitmap.minX bitmap.maxX).map (fun x => f x y)).sum)).sum =
      (bitmap.pixels.map (fun p => f p.1 p.2)).sum := by
  rw [sum_pixels, rangeIncl_succ _ _ (le_of_lt hh)]
  have hcol : ∀ y, ((rangeIncl bitmap.minX bitmap.maxX).map (fun x => f x y)).sum =
      ((rangeIncl bitmap.minX (bitmap.maxX - 1)).map (fun x => f x y)).sum := by
    intro y
    rw [rangeIncl_succ _ _ (le_of_lt hw), List.map_append, List.sum_append]
    have : f bitmap.maxX y = 0 := hzero _ _ (by simp [Rect.Has, Image.Bounds])
    simp [this]
  have hrow : ((rangeIncl bitmap.minX bitmap.maxX).map (fun x => f x bitmap.maxY)).sum = 0 := by
    apply List.sum_eq_zero
    intro v hv
    obtain ⟨x, _, rfl⟩ := List.mem_map.mp hv
    exact hzero _ _ (by simp [Rect.Has, Image.Bounds])
  have hlast := (hcol bitmap.maxY).symm.trans hrow
  simp only [List.map_append, List.sum_append, List.map_cons, List.map_nil, List.sum_cons,
    List.sum_nil, hcol, hlast, add_zero]

/-- The divisor `pixelCount` of `getImageColour` over the bounds of a bitmap with
fewer than `2^32` pixels is the number of pixels. -/
theorem toUint32_area (bitmap : Image) (hw : bitmap.minX < bitmap.maxX)
    (hh : bitmap.minY < bitmap.maxY)
    (hsmall : (bitmap.maxX - bitmap.minX) * (bitmap.maxY - bitmap.minY) < 4294967296) :
    toUint32 ((bitmap.maxX - bitmap.minX) * (bitmap.maxY - bitmap.minY)) =
      bitmap.pixels.length := by
  have hpos : 0 < (bitmap.maxX - bitmap.minX) * (bitmap.maxY - bitmap.minY) :=
    Int.mul_pos (by omega) (by omega)
  rw [length_pixels, toUint32, Int.emod_eq_of_lt (le_of_lt hpos) hsmall]
  have e1 : ((bitmap.maxX - bitmap.minX).toNat : Int) = bitmap.maxX - bitmap.minX :=
    Int.toNat_of_nonneg (by omega)
  have e2 : ((bitmap.maxY - bitmap.minY).toNat : Int) = bitmap.maxY - bitmap.minY :=
    Int.toNat_of_nonneg (by omega)
  apply Int.ofNat_inj.mp
  rw [Int.toNat_of_nonneg (le_of_lt hpos)]
  push_cast
  rw [e1, e2]
  ring

/-- The average that `getImageColour` forms over the bounds of a bitmap is the
average over the pixels of the bitmap, when the bitmap has pixels, fewer than
`2^32`, and its `At` is the zero colour outside the bounds. -/
theorem getImageColour_bounds_eq_spec (bitmap : Image) (hw : bitmap.minX < bitmap.maxX)
    (hh : bitmap.minY < bitmap.maxY)
    (hsmall : (bitmap.maxX - bitmap.minX) * (bitmap.maxY - bitmap.minY) < 4294967296)
    (hzero : ∀ x y, bitmap.Bounds.Has x y = false → bitmap.At x y = { r := 0, g := 0, b := 0 }) :
    getImageColour bitmap bitmap.minX bitmap.minY bitmap.maxX bitmap.maxY =
      specBitmapAverage bitmap := by
  have hlen := toUint32_area bitmap hw hh hsmall
  have hne : bitmap.pixels.length ≠ 0 := by
    rw [length_pixels]
    have h1 : 0 < (bitmap.maxY - bitmap.minY).toNat := by omega
    have h2 : 0 < (bitmap.maxX - bitmap.minX).toNat := by omega
    exact Nat.pos_iff_ne_zero.mp (Nat.mul_pos h1 h2)
  unfold getImageColour specBitmapAverage
  simp only [hlen, hne, if_false, sumRegion_eq]
  rw [sum_incl_eq_sum_pixels bitmap (fun x y => (bitmap.At x y).r) hw hh
      (fun x y h => by simp only [hzero x y h]),
    sum_incl_eq_sum_pixels bitmap (fun x y => (bitmap.At x y).g) hw hh
      (fun x y h => by simp only [hzero x y h]),
    sum_incl_eq_sum_pixels bitmap (fun x y => (bitmap.At x y).b) hw hh
      (fun x y h => by simp only [hzero x y h])]

/-- The average that `main_channels.go` stores for a tile is the average over the
pixels of the resized bitmap, when that bitmap has pixels, fewer than `2^32`, and
its `At` is the zero colour outside the bounds. -/
theorem getTileColour_average_eq_spec (env : Env) (xDelta : Int) (tileImage : Image)
    (hw : (env.resize xDelta tileImage).minX < (env.resize xDelta tileImage).maxX)
    (hh : (env.resize xDelta tileImage).minY < (env.resize xDelta tileImage).maxY)
    (hsmall : ((env.resize xDelta tileImage).maxX - (env.resize xDelta tileImage).minX) *
      ((env.resize xDelta tileImage).maxY - (env.resize xDelta tileImage).minY) < 4294967296)
    (hzero : ∀ x y, (env.resize xDelta tileImage).Bounds.Has x y = false →
      (env.resize xDelta tileImage).At x y = { r := 0, g := 0, b := 0 }) :
    (getTileColour env xDelta tileImage).averageRGB =
      specBitmapAverage (env.resize xDelta tileImage) :=
  getImageColour_bounds_eq_spec _ hw hh hsmall hzero

/-- The average that `main_mutex.go` stores for a tile: the sums of
`getImageColour` over the bounds of the resized bitmap, read from the decoded
tile. -/
theorem getTileColourMutex_average (env : Env) (xDelta : Int) (filename : String)
    (tileImage : Image) (hfilter : MatchString imagePattern filename = true)
    (hopen : env.openTile filename = true)
    (hdecode : env.decodeTile filename = some tileImage) :
    ∃ tile, (getTileColourMutex env xDelta filename).2 = TileResult.stored tile ∧
      tile.scaled = env.resize xDelta tileImage ∧
      tile.averageRGB =
        getImageColour tileImage (env.resize xDelta tileImage).minX
          (env.resize xDelta tileImage).minY (env.resize xDelta tileImage).maxX
          (env.resize xDelta tileImage).maxY := by
  simp only [getTileColourMutex, hfilter, hopen, hdecode, Bool.not_true, Bool.false_eq_true,
    if_false]
  exact ⟨_, rfl, rfl, rfl⟩

/-- C11: the tile `halvesTile` for the cell width 2.  Its resized bitmap has one
black and one white column, so the average over the pixels of the resized bitmap
is `65535 / 2` per channel, and that is what `main_channels.go` stores.
`main_mutex.go` stores `196605 / 4`: its sums read the pixels of the decoded tile
at the points `[0, 2] x [0, 2]`, three of them white in every row.  For a resized
bitmap of the type `image.YCbCr` the average stored by `main_channels.go` differs
from the average over the pixels too, in the green channel. -/
theorem mutex_average_reads_original :
    (halvesEnv.resize 2 halvesTile).Bounds = { minX := 0, minY := 0, maxX := 2, maxY := 2 } ∧
    specBitmapAverage (halvesEnv.resize 2 halvesTile) =
      some { r := 65535 / 2, g := 65535 / 2, b := 65535 / 2 } ∧
    (mainChannels halvesEnv).tiles.map (fun ft => (ft.1, ft.2.averageRGB)) =
      [("a.jpg", some { r := 65535 / 2, g := 65535 / 2, b := 65535 / 2 })] ∧
    (mainMutex halvesEnv).tiles.map (fun ft => (ft.1, ft.2.averageRGB)) =
      [("a.jpg", some { r := 196605 / 4, g := 196605 / 4, b := 196605 / 4 })] ∧
    getImageColour halvesTile 0 0 2 2 =
      some { r := 196605 / 4, g := 196605 / 4, b := 196605 / 4 } ∧
    specBitmapAverage (redBlueYCbCrEnv.resize 10 (solidYCbCr 20 20 red)) =
      some { r := 65535, g := 0, b := 0 } ∧
    (getTileColour redBlueYCbCrEnv 10 (solidYCbCr 20 20 red)).averageRGB =
      some { r := 65535, g := 21 * 34678 / 100, b := 0 } :=
  ⟨by decide, by decide!, by decide!, by decide!, by decide!, by decide!, by decide!⟩

/-! ## C12: the distance in the matching loop of `main_nonconc.go` and `main_conc.go` -/


theorem toUint8_lt (v : Nat) : toUint8 v < 256 := Nat.mod_lt _ (by decide)

theorem subUint8_lt (a b : Nat) : subUint8 a b < 256 := by
  unfold subUint8
  omega

/-- A `uint8` difference that does not wrap is the integer difference. -/
theorem subUint8_of_le (a b : Nat) (ha : a < 256) (hba : b ≤ a) :
    (subUint8 a b : Int) = (a : Int) - (b : Int) := by
  unfold subUint8
  omega

/-- A `uint8` difference that wraps is the integer difference plus `2^8`. -/
theorem subUint8_of_lt (a b : Nat) (hb : b < 256) (hab : a < b) :
    (subUint8 a b : Int) = (a : Int) - (b : Int) + 256 := by
  unfold subUint8
  omega

/-- Where no channel of the tile exceeds the channel of the cell, in 8 bits, the
value under the root is the square of the Euclidean distance. -/
theorem Nonconc.tileVectorDiffSq_eq_spec_of_le (orig colour : RGB)
    (hr : toUint8 colour.r ≤ toUint8 orig.r) (hg : toUint8 colour.g ≤ toUint8 orig.g)
    (hb : toUint8 colour.b ≤ toUint8 orig.b) :
    (Nonconc.tileVectorDiffSq orig colour : Int) = specVectorDiffSq orig colour := by
  unfold Nonconc.tileVectorDiffSq specVectorDiffSq
  push_cast
  rw [subUint8_of_le _ _ (toUint8_lt _) hr, subUint8_of_le _ _ (toUint8_lt _) hg,
    subUint8_of_le _ _ (toUint8_lt _) hb]

/-- The value under the root is below the square of the initial `smallestDiff`. -/
theorem Nonconc.tileVectorDiffSq_lt_init (orig colour : RGB) :
    Nonconc.tileVectorDiffSq orig colour < Nonconc.smallestDiffInitSq := by
  have h1 := subUint8_lt (toUint8 orig.r) (toUint8 colour.r)
  have h2 := subUint8_lt (toUint8 orig.g) (toUint8 colour.g)
  have h3 := subUint8_lt (toUint8 orig.b) (toUint8 colour.b)
  unfold Nonconc.tileVectorDiffSq Nonconc.smallestDiffInitSq
  have e1 : subUint8 (toUint8 orig.r) (toUint8 colour.r) ^ 2 ≤ 255 ^ 2 :=
    Nat.pow_le_pow_left (by omega) 2
  have e2 : subUint8 (toUint8 orig.g) (toUint8 colour.g) ^ 2 ≤ 255 ^ 2 :=
    Nat.pow_le_pow_left (by omega) 2
  have e3 : subUint8 (toUint8 orig.b) (toUint8 colour.b) ^ 2 ≤ 255 ^ 2 :=
    Nat.pow_le_pow_left (by omega) 2
  norm_num at e1 e2 e3 ⊢
  omega

/-- C12: for the cell colour `(0, 0, 0)` and the tile colour `(257, 0, 0)`, whose
8-bit channel values are `(0, 0, 0)` and `(1, 0, 0)`, the `uint8` subtraction
`0 - 1` wraps to 255: `tileVectorDiff` is 255, and the Euclidean distance of the
8-bit colours is 1.  In the map `nearFarColours` the matching loop then selects
`far.jpg`, at Euclidean distance 100, for a cell at distance 1 from `near.jpg`. -/
theorem tileVectorDiff_wraps_around :
    toUint8 0 = 0 ∧ toUint8 257 = 1 ∧ subUint8 0 1 = 255 ∧
    Real.sqrt ((Nonconc.tileVectorDiffSq { r := 0, g := 0, b := 0 }
      { r := 257, g := 0, b := 0 } : Nat) : ℝ) = 255 ∧
    Real.sqrt ((specVectorDiffSq { r := 0, g := 0, b := 0 }
      { r := 257, g := 0, b := 0 } : Int) : ℝ) = 1 ∧
    nearFarColours.map (fun tc => specVectorDiffSq { r := 0, g := 0, b := 0 } tc.2) =
      [1 ^ 2, 100 ^ 2] ∧
    nearFarColours.map (fun tc => Nonconc.tileVectorDiffSq { r := 0, g := 0, b := 0 } tc.2) =
      [255 ^ 2, 156 ^ 2] ∧
    Nonconc.nearestTile nearFarColours { r := 0, g := 0, b := 0 } = "far.jpg" ∧
    Nonconc.nearestTile nearFarColours.reverse { r := 0, g := 0, b := 0 } = "far.jpg" := by
  have h1 : Nonconc.tileVectorDiffSq { r := 0, g := 0, b := 0 }
      { r := 257, g := 0, b := 0 } = 255 ^ 2 := by decide
  have h2 : specVectorDiffSq { r := 0, g := 0, b := 0 }
      { r := 257, g := 0, b := 0 } = 1 ^ 2 := by decide
  refine ⟨by decide, by decide, by decide, ?_, ?_, by decide, by decide, by decide,
    by decide⟩
  · have e : ((255 ^ 2 : Nat) : ℝ) = (255 : ℝ) ^ 2 := by norm_num
    rw [h1, e, Real.sqrt_sq (by norm_num)]
  · have e : ((1 ^ 2 : Int) : ℝ) = (1 : ℝ) ^ 2 := by norm_num
    rw [h2, e, Real.sqrt_sq (by norm_num)]

/-! ## C13: the nested loops of `main_nonconc.go` and `main_conc.go` -/

theorem forLoop_zero_step (fuel : Nat) (v hi : Int) (h : v ≤ hi) :
    forLoop fuel v hi 0 = none := by
  induction fuel with
  | zero => rfl
  | succ n ih => simp [forLoop, h, ih]

theorem cellLoop_zero_xDelta (fuelY fuelX : Nat) (xMin y xMax yMax yDelta : Int)
    (hx : xMin ≤ xMax) (hy : y ≤ yMax) :
    cellLoop fuelY fuelX xMin y xMax yMax 0 yDelta = none := by
  cases fuelY with
  | zero => rfl
  | succ n => simp [cellLoop, hy, forLoop_zero_step fuelX xMin xMax hx]

theorem cellLoop_zero_yDelta (fuelY fuelX : Nat) (xMin y xMax yMax xDelta : Int)
    (hy : y ≤ yMax) :
    cellLoop fuelY fuelX xMin y xMax yMax xDelta 0 = none := by
  induction fuelY with
  | zero => rfl
  | succ n ih =>
    simp only [cellLoop, hy, if_true, add_zero, ih]
    cases forLoop fuelX xMin xMax xDelta <;> rfl

theorem tdiv_pos_of_le {a b : Int} (hb : 1 ≤ b) (hab : b ≤ a) : 0 < Int.tdiv a b := by
  rw [Int.tdiv_eq_ediv (by omega) (by omega)]
  have h : 1 ≤ a / b := Int.le_ediv_of_mul_le (by omega) (by omega)
  omega

theorem tdiv_zero_of_lt {a b : Int} (ha : 0 ≤ a) (hab : a < b) : Int.tdiv a b = 0 := by
  rw [Int.tdiv_eq_ediv ha (by omega)]
  exact Int.ediv_eq_zero_of_lt ha hab

/-- With one tile in the map the matching loop selects it for every cell colour. -/
theorem Nonconc.nearestTile_singleton (file : String) (colour orig : RGB) :
    Nonconc.nearestTile [(file, colour)] orig = file := by
  simp [Nonconc.nearestTile, Nonconc.matchStep, Nonconc.tileVectorDiffSq_lt_init]

/-- In the run `narrowEnv` with the map `oneRedColour` the body completes at every
cell: the file `a.jpg` is selected, opened and decoded. -/
theorem Nonconc.cellBody_narrowEnv (x y : Int) :
    Nonconc.cellBody narrowEnv oneRedColour (solidImage 5 100 red) x y =
      ("a.jpg", Nonconc.BodyEnd.completed) := by
  simp [Nonconc.cellBody, oneRedColour, Nonconc.nearestTile_singleton, narrowEnv]

/-- C13: the nested cell loop of `main_nonconc.go` and `main_conc.go` on a source of
width `W >= 1` and height `H >= 1` with the tile count `T >= 1`.  For `T <= W` and
`T <= H` both steps are positive and the loop ends after
`(W / xDelta + 1) * (H / yDelta + 1)` cells.  For `T > W` or `T > H` a step is 0 and
the loop does not end: whatever the bounds on the number of iterations, the bound
is hit. -/
theorem nonconc_cell_loop_termination (origImage : Image) (T : Int)
    (hW : 1 ≤ origImage.maxX - origImage.minX) (hH : 1 ≤ origImage.maxY - origImage.minY)
    (hT : 1 ≤ T) :
    (T ≤ origImage.maxX - origImage.minX ∧ T ≤ origImage.maxY - origImage.minY →
      ∃ cells,
        (∀ fuelY fuelX,
          (origImage.maxY + 1 - origImage.minY).toNat + 1 ≤ fuelY →
          (origImage.maxX + 1 - origImage.minX).toNat + 1 ≤ fuelX →
          Nonconc.cells fuelY fuelX origImage T = some cells) ∧
        cells.length =
          loopCount origImage.minY origImage.maxY
              (Int.tdiv (origImage.maxY - origImage.minY) T) *
            loopCount origImage.minX origImage.maxX
              (Int.tdiv (origImage.maxX - origImage.minX) T)) ∧
    (origImage.maxX - origImage.minX < T ∨ origImage.maxY - origImage.minY < T →
      ∀ fuelY fuelX, Nonconc.cells fuelY fuelX origImage T = none) := by
  constructor
  · rintro ⟨hTW, hTH⟩
    refine ⟨gridCells origImage.minX origImage.minY origImage.maxX origImage.maxY
      (Int.tdiv (origImage.maxX - origImage.minX) T)
      (Int.tdiv (origImage.maxY - origImage.minY) T), ?_, gridCells_length _ _ _ _ _ _⟩
    intro fuelY fuelX hfy hfx
    exact cellLoop_eq _ _ _ _ _ (tdiv_pos_of_le hT hTW) (tdiv_pos_of_le hT hTH) fuelX hfx
      fuelY _ hfy
  · intro h fuelY fuelX
    unfold Nonconc.cells
    rcases h with h | h
    · simp only [tdiv_zero_of_lt (by omega) h]
      exact cellLoop_zero_xDelta _ _ _ _ _ _ _ (by omega) (by omega)
    · simp only [tdiv_zero_of_lt (by omega) h]
      exact cellLoop_zero_yDelta _ _ _ _ _ _ _ (by omega)

/-- C13 (witness): a source of 5 x 100 pixels with `-t 10`, the default tile count.
The step `xDelta` is 0, every body completes, and the loop never ends. -/
theorem nonconc_cell_loop_termination_witness :
    Int.tdiv ((solidImage 5 100 red).maxX - (solidImage 5 100 red).minX) 10 = 0 ∧
    (∀ x y, Nonconc.cellBody narrowEnv oneRedColour (solidImage 5 100 red) x y =
      ("a.jpg", Nonconc.BodyEnd.completed)) ∧
    ∀ fuelY fuelX, Nonconc.cells fuelY fuelX (solidImage 5 100 red) 10 = none :=
  ⟨by decide, Nonconc.cellBody_narrowEnv,
    (nonconc_cell_loop_termination (solidImage 5 100 red) 10 (by decide) (by decide)
      (by decide)).2 (Or.inl (by decide))⟩

end Mosaic
